import Mathlib

/-!
Verification of the Sobol sensitivity-analysis pipeline in
`src/pysb/gabi_sampling.py` (pysb-legacy), via a shallow embedding of its
functions over Lean lists and rationals.

Matrices are embedded as `List (List ℚ)` in row-major order, mirroring
numpy 2-D arrays; a (p, n, m) numpy array becomes `List (List (List ℚ))`.
Floating-point values that can become `inf`/`nan` (inside `compare_data`)
are embedded by the inductive type `PF` below, with finite values kept as
exact rationals (the usual idealization of float arithmetic); everywhere
else the code's arithmetic stays in the rationals/reals, except that the
`ctypes.c_float` parameter buffer's single-precision rounding is modelled
exactly by `roundF32`.  External library calls (scipy's B-spline
resampling, the ODE integrator) are abstracted as function parameters;
`writetofile` is embedded as the ordered list of strings it writes.
-/

namespace GabiSampling

/-- Column `j` of a row-major matrix (numpy `M[:, j]`). -/
def getCol (m : List (List ℚ)) (j : ℕ) : List ℚ :=
  m.map (fun r => r.getD j 0)

/-- Overwrite column `j` of `m` with vector `v` (numpy `M[:, j] = v`). -/
def setCol (m : List (List ℚ)) (j : ℕ) (v : List ℚ) : List (List ℚ) :=
  m.zipWith (fun r x => r.set j x) v

/-- Embedding of `genCmtx(sobmtxA, sobmtxB)`:
`nparams = sobmtxA.shape[1]`; allocate `nparams` copies of `sobmtxB`
(`numpy.array([sobmtxB]*nparams)`) and replace the `i`-th column of the
`i`-th copy with the `i`-th column of `sobmtxA`. -/
def genCmtx (sobmtxA sobmtxB : List (List ℚ)) : List (List (List ℚ)) :=
  let nparams := (sobmtxA.headD []).length
  (List.range nparams).map (fun i => setCol sobmtxB i (getCol sobmtxA i))

/-- numpy `sum(axis=0)` over an (n, m) row-major matrix: the vector of
column sums. -/
def colSum (m : ℕ) (rows : List (List ℚ)) : List ℚ :=
  rows.foldr (List.zipWith (· + ·)) (List.replicate m 0)

/-- numpy `average(axis=0)`: column sums divided by the number of rows. -/
def colAverage (m : ℕ) (rows : List (List ℚ)) : List ℚ :=
  (colSum m rows).map (fun s => s / (rows.length : ℚ))

/-- numpy `var(axis=0, ddof)` : column-wise variance with divisor
`n - ddof`. -/
def colVar (m : ℕ) (ddof : ℕ) (rows : List (List ℚ)) : List ℚ :=
  let mu := colAverage m rows
  let sq := rows.map (fun r => List.zipWith (fun x a => (x - a) ^ 2) r mu)
  (colSum m sq).map (fun s => s / ((rows.length : ℚ) - (ddof : ℚ)))

/-- numpy elementwise product of two equally shaped 2-D arrays. -/
def matMulElem (x y : List (List ℚ)) : List (List ℚ) :=
  List.zipWith (List.zipWith (· * ·)) x y

/-- Embedding of `getvarsens(yA, yB, yC)`:
`nparms = yC.shape[0]`, `nsamples = yC.shape[1]`, `nobs = yC.shape[-1]`;
`varyA/varyB = numpy.var(·, axis=0, ddof=1)`;
`E_s = numpy.average(yA*yB, axis=0)`; `E_st = numpy.average(yB, axis=0)**2`;
`Sens[i]  = ((yA*yC[i]).sum(axis=0)/(nsamples-1) - E_s ) / varyA`;
`SensT[i] = 1 - (((yB*yC[i]).sum(axis=0)/(nsamples-1)) - E_st) / varyB`. -/
def getvarsens (yA yB : List (List ℚ)) (yC : List (List (List ℚ))) :
    List (List ℚ) × List (List ℚ) :=
  let nparms := yC.length
  let nsamples := (yC.headD []).length
  let nobs := ((yC.headD []).headD []).length
  let varyA := colVar nobs 1 yA
  let varyB := colVar nobs 1 yB
  let E_s := colAverage nobs (matMulElem yA yB)
  let E_st := (colAverage nobs yB).map (fun x => x ^ 2)
  let Sens := (List.range nparms).map (fun i =>
    List.zipWith (· / ·)
      (List.zipWith (· - ·)
        ((colSum nobs (matMulElem yA (yC.getD i []))).map
          (fun s => s / ((nsamples : ℚ) - 1)))
        E_s)
      varyA)
  let SensT := (List.range nparms).map (fun i =>
    List.zipWith (fun a b => 1 - a / b)
      (List.zipWith (· - ·)
        ((colSum nobs (matMulElem yB (yC.getD i []))).map
          (fun s => s / ((nsamples : ℚ) - 1)))
        E_st)
      varyB)
  (Sens, SensT)

/-- IEEE-754 double values as numpy sees them inside `compare_data`:
finite values (kept exact as rationals), the two infinities, and NaN.
`numpy.seterr(divide='ignore')` only silences warnings; the arithmetic
below is what numpy computes. -/
inductive PF : Type where
  | fin : ℚ → PF
  | inf : PF
  | ninf : PF
  | nan : PF
deriving DecidableEq

/-- IEEE subtraction. -/
def PF.sub : PF → PF → PF
  | PF.nan, _ => PF.nan
  | _, PF.nan => PF.nan
  | PF.fin a, PF.fin b => PF.fin (a - b)
  | PF.fin _, PF.inf => PF.ninf
  | PF.fin _, PF.ninf => PF.inf
  | PF.inf, PF.fin _ => PF.inf
  | PF.ninf, PF.fin _ => PF.ninf
  | PF.inf, PF.inf => PF.nan
  | PF.inf, PF.ninf => PF.inf
  | PF.ninf, PF.inf => PF.ninf
  | PF.ninf, PF.ninf => PF.nan

/-- IEEE addition. -/
def PF.add : PF → PF → PF
  | PF.nan, _ => PF.nan
  | _, PF.nan => PF.nan
  | PF.fin a, PF.fin b => PF.fin (a + b)
  | PF.fin _, PF.inf => PF.inf
  | PF.fin _, PF.ninf => PF.ninf
  | PF.inf, PF.fin _ => PF.inf
  | PF.ninf, PF.fin _ => PF.ninf
  | PF.inf, PF.inf => PF.inf
  | PF.inf, PF.ninf => PF.nan
  | PF.ninf, PF.inf => PF.nan
  | PF.ninf, PF.ninf => PF.ninf

/-- IEEE multiplication (`inf * 0 = nan`). -/
def PF.mul : PF → PF → PF
  | PF.nan, _ => PF.nan
  | _, PF.nan => PF.nan
  | PF.fin a, PF.fin b => PF.fin (a * b)
  | PF.fin a, PF.inf => if 0 < a then PF.inf else if a < 0 then PF.ninf else PF.nan
  | PF.fin a, PF.ninf => if 0 < a then PF.ninf else if a < 0 then PF.inf else PF.nan
  | PF.inf, PF.fin b => if 0 < b then PF.inf else if b < 0 then PF.ninf else PF.nan
  | PF.ninf, PF.fin b => if 0 < b then PF.ninf else if b < 0 then PF.inf else PF.nan
  | PF.inf, PF.inf => PF.inf
  | PF.inf, PF.ninf => PF.ninf
  | PF.ninf, PF.inf => PF.ninf
  | PF.ninf, PF.ninf => PF.inf

/-- IEEE division (`x/0 = ±inf` for `x ≠ 0`, `0/0 = nan`, finite over
infinite is zero); the zero divisors produced in `compare_data` are
positive zeros. -/
def PF.div : PF → PF → PF
  | PF.nan, _ => PF.nan
  | _, PF.nan => PF.nan
  | PF.fin a, PF.fin b =>
    if b = 0 then (if 0 < a then PF.inf else if a < 0 then PF.ninf else PF.nan)
    else PF.fin (a / b)
  | PF.fin _, PF.inf => PF.fin 0
  | PF.fin _, PF.ninf => PF.fin 0
  | PF.inf, PF.fin b => if 0 ≤ b then PF.inf else PF.ninf
  | PF.ninf, PF.fin b => if 0 ≤ b then PF.ninf else PF.inf
  | PF.inf, PF.inf => PF.nan
  | PF.inf, PF.ninf => PF.nan
  | PF.ninf, PF.inf => PF.nan
  | PF.ninf, PF.ninf => PF.nan

/-- `numpy.isinf`. -/
def PF.isinf : PF → Bool
  | PF.inf => true
  | PF.ninf => true
  | _ => false

/-- `numpy.isnan`. -/
def PF.isnan : PF → Bool
  | PF.nan => true
  | _ => false

/-- The clamp constant `1e-100` ("zero enough"). -/
def clampConst : ℚ := 1 / 10 ^ 100

/-- The correction loop of `compare_data`: any `inf` or `nan` entry of
`objarray` is replaced by `1e-100`. -/
def clampObj (objarray : List PF) : List PF :=
  objarray.map (fun x => if x.isinf || x.isnan then PF.fin clampConst else x)

/-- numpy `objarray.sum()`. -/
def pfSum (l : List PF) : PF := l.foldr PF.add (PF.fin 0)

/-- The variance series of one pairing in `compare_data`:
`xparray[xparrayaxis+1]` when `vardata is True`, else
`(xparray[xparrayaxis]*.1)` squared elementwise. -/
def varRow (xparray : List (List PF)) (xparrayaxis : ℕ) (vardata : Bool) : List PF :=
  if vardata then xparray.getD (xparrayaxis + 1) []
  else (xparray.getD xparrayaxis []).map
    (fun x => PF.mul (PF.mul x (PF.fin (1/10))) (PF.mul x (PF.fin (1/10))))

/-- Embedding of `compare_data(xparray, simarray, xspairlist, vardata)`.
The cubic B-spline resampling (`scipy.interpolate.splrep` of
`(simarray[0], simarray[simarrayaxis])` evaluated by `splev` at
`xparray[0]`) is an external library call, abstracted as
`interp simtime simrow xptime`.  Per pairing
`(xparrayaxis, simarrayaxis)`: `diffarray = ipsimarray -
xparray[xparrayaxis]`; `diffsqarray = diffarray*diffarray`;
`xparrayvar` as in `varRow`, then doubled; `objarray =
diffsqarray/xparrayvar` with every `inf`/`nan` entry clamped to `1e-100`;
the pairing's objective is `objarray.sum()`, appended in pairing order. -/
def compare_data (interp : List PF → List PF → List PF → List PF)
    (xparray simarray : List (List PF)) (xspairlist : List (ℕ × ℕ))
    (vardata : Bool) : List PF :=
  xspairlist.map (fun pr =>
    let xparrayaxis := pr.1
    let simarrayaxis := pr.2
    let ipsimarray :=
      interp (simarray.getD 0 []) (simarray.getD simarrayaxis []) (xparray.getD 0 [])
    let diffarray := List.zipWith PF.sub ipsimarray (xparray.getD xparrayaxis [])
    let diffsqarray := List.zipWith PF.mul diffarray diffarray
    let xparrayvar := (varRow xparray xparrayaxis vardata).map
      (fun x => PF.mul x (PF.fin 2))
    let objarray := List.zipWith PF.div diffsqarray xparrayvar
    pfSum (clampObj objarray))

/-- numpy `min(row)` of one (nonempty) row: `numpy.min(outlist[0], axis=1)`
picks this per row. -/
def rowMin (r : List ℚ) : ℚ := r.foldr min (r.headD 0)

/-- numpy `max(row)` of one (nonempty) row. -/
def rowMax (r : List ℚ) : ℚ := r.foldr max (r.headD 0)

/-- Embedding of the normalization block of `parmeval` (`norm=True`):
`datamax = numpy.max(outlist[0], axis=1)`;
`datamin = numpy.min(outlist[0], axis=1)`;
`outlistnorm = ((outlist[0].T - datamin)/(datamax-datamin)).T`;
`outlistnorm[0] = outlist[0][0].copy()`.
Broadcasting the per-row extrema over the transpose subtracts `datamin[i]`
from, and divides `datamax[i] - datamin[i]` into, every entry of row `i`,
so the double transpose is embedded row-wise; the final assignment restores
the original time row.  `outlistnorm` is the array handed to
`compare_data`. -/
def normalizeOut (out0 : List (List ℚ)) : List (List ℚ) :=
  let scaled := out0.map (fun r =>
    r.map (fun x => (x - rowMin r) / (rowMax r - rowMin r)))
  scaled.set 0 (out0.getD 0 [])

/-- Left-to-right traversal that stops at the first error: the semantics of
a Python `for` loop whose body may raise. -/
def mapExcept {α β : Type} (f : α → Except String β) : List α → Except String (List β)
  | [] => Except.ok []
  | a :: t =>
    match f a with
    | Except.error e => Except.error e
    | Except.ok b =>
      match mapExcept f t with
      | Except.error e => Except.error e
      | Except.ok bs => Except.ok (b :: bs)

/-- The message Python produces when the `norm=False` branch of `parmeval`
reads the name `outlistnorm`, which that branch never assigns. -/
def nameErrorMsg : String := "NameError: name outlistnorm is not defined"

/-- Embedding of the `norm=False` branch of `parmeval` (the `else:` block).
`ode` stands for the black-box `odesolve(model, time, envlist, row,
useparams, ic)[0]` and `cmp` for `compare_data(xpdata, ·, xspairlist,
vardata)`.  Python local-variable scoping is made explicit: `outlistnorm`
is assigned only in the `norm=True` branch, so in this branch it is an
`Option` that is `none`; the code's `yB[i] = compare_data(xpdata,
outlistnorm, ...)` and `yC[i][j] = compare_data(xpdata, outlistnorm, ...)`
reads are modelled by `Except.error nameErrorMsg` when it is unbound. -/
def parmevalNoNorm (ode : List ℚ → List (List ℚ))
    (cmp : List (List ℚ) → List ℚ)
    (sobmtxA sobmtxB : List (List ℚ)) (sobmtxC : List (List (List ℚ))) :
    Except String (List (List ℚ) × List (List ℚ) × List (List (List ℚ))) :=
  let outlistnorm : Option (List (List ℚ)) := none
  let yA := sobmtxA.map (fun row => cmp (ode row))
  let readNorm : List ℚ → Except String (List ℚ) := fun _row =>
    match outlistnorm with
    | none => Except.error nameErrorMsg
    | some o => Except.ok (cmp o)
  match mapExcept readNorm sobmtxB with
  | Except.error e => Except.error e
  | Except.ok yB =>
    match mapExcept (fun slice => mapExcept readNorm slice) sobmtxC with
    | Except.error e => Except.error e
    | Except.ok yC => Except.ok (yA, yB, yC)

/-- `⌊log₂ n⌋` by halving (kernel-reducible; the first argument is fuel,
`natLog2 n` supplies `n` itself, which bounds the number of halvings). -/
def natLog2Aux : ℕ → ℕ → ℕ
  | 0, _ => 0
  | fuel + 1, n => if n < 2 then 0 else natLog2Aux fuel (n / 2) + 1

/-- `⌊log₂ n⌋` for `n ≥ 1`. -/
def natLog2 (n : ℕ) : ℕ := natLog2Aux n n

/-- `2^e` over ℚ for an integer exponent. -/
def qpow2 : ℤ → ℚ
  | Int.ofNat k => ((2 ^ k : ℕ) : ℚ)
  | Int.negSucc k => 1 / ((2 ^ (k + 1) : ℕ) : ℚ)

/-- `⌊x⌋` of a rational. -/
def qfloor (x : ℚ) : ℤ := x.num.fdiv (x.den : ℤ)

/-- Round to nearest integer, ties to even: IEEE-754's default rounding
mode, which `ctypes.c_float` stores apply. -/
def rne (x : ℚ) : ℤ :=
  let n := qfloor x
  let f := x - (n : ℚ)
  if f < 1/2 then n
  else if 1/2 < f then n + 1
  else if n % 2 = 0 then n else n + 1

/-- `⌊log₂ q⌋` for `q > 0` (junk 0 otherwise): the quotient of the bit
lengths of numerator and denominator is within one of the true value, so
it is corrected by two comparisons. -/
def floorLog2 (q : ℚ) : ℤ :=
  if q ≤ 0 then 0
  else
    let e0 : ℤ := (natLog2 q.num.toNat : ℤ) - (natLog2 q.den : ℤ)
    if qpow2 (e0 + 1) ≤ q then e0 + 1
    else if q < qpow2 e0 then e0 - 1
    else e0

/-- Rounding of a positive magnitude to the IEEE-754 single-precision
grid: 24-bit significand for normal values, fixed spacing `2^-149` below
`2^-126` (subnormals), round to nearest with ties to even; a rounded
magnitude reaching `2^128` overflows (to infinity in IEEE-754; modelled by
the stand-in `2^128`, which no parameter in range reaches). -/
def roundF32pos (aq : ℚ) : ℚ :=
  let e : ℤ := max (floorLog2 aq) (-126)
  if qpow2 128 ≤ (rne (aq / qpow2 (e - 23)) : ℚ) * qpow2 (e - 23)
  then qpow2 128
  else (rne (aq / qpow2 (e - 23)) : ℚ) * qpow2 (e - 23)

/-- The value a `ctypes.c_float` cell holds after a Python float (IEEE
double, here idealized as an exact rational) is stored into it: rounding
to single precision, symmetric in sign. -/
def roundF32 (q : ℚ) : ℚ :=
  if q = 0 then 0
  else if q < 0 then -(roundF32pos (-q)) else roundF32pos q

/-- `odeinit`'s parameter initialization
`data.p[:] = [p.value for p in model.parameters]`: every nominal value is
stored into the `ctypes.c_float` array, hence rounded to single
precision. -/
def odeinitParams (nominal : List ℚ) : List ℚ := nominal.map roundF32

/-- A Python loop `for i in range(n): buf[idx(i)] = val(i)` over a list
buffer. -/
def setLoop (p : List ℚ) (idx : ℕ → ℕ) (val : ℕ → ℚ) : ℕ → List ℚ
  | 0 => p
  | n + 1 => (setLoop p idx val n).set (idx n) (val n)

/-- The parameter-overwrite phase of `odesolve`: with `useparams=None`,
`data.p[i] = params[i]` for every `i` in `range(len(params))`; otherwise
`data.p[useparams[i]] = params[i]` for `i` in `range(len(useparams))`.
Every store goes through the `c_float` buffer, i.e. is rounded by
`roundF32`. -/
def writeParams (p : List ℚ) (params : List ℚ) (useparams : Option (List ℕ)) :
    List ℚ :=
  match useparams with
  | none => setLoop p (fun i => i) (fun i => roundF32 (params.getD i 0)) params.length
  | some us =>
    setLoop p (fun i => us.getD i 0) (fun i => roundF32 (params.getD i 0)) us.length

/-- Embedding of `getlog(sobolarr, params, omag, useparams, usemag)` for
one sample vector: per index `i`,
`ub[i] = params[i]*pow(10,usemag)` and `lb[i] = params[i]/pow(10,usemag)`
when `i in useparams`, else with `omag`; the result is the numpy
broadcast `lb*(ub/lb)**sobolarr` (real exponentiation), elementwise over
the `len(params)` entries. -/
noncomputable def getlog (sobolarr params : List ℝ) (omag : ℤ)
    (useparams : List ℕ) (usemag : ℤ) : List ℝ :=
  let ub := fun i =>
    if i ∈ useparams then params.getD i 0 * (10:ℝ) ^ usemag
    else params.getD i 0 * (10:ℝ) ^ omag
  let lb := fun i =>
    if i ∈ useparams then params.getD i 0 / (10:ℝ) ^ usemag
    else params.getD i 0 / (10:ℝ) ^ omag
  (List.range params.length).map
    (fun i => lb i * (ub i / lb i) ^ (sobolarr.getD i 0))

/-- The newline/comma decision after parameter value `i` of `n` in
`writetofile`: `(i != 0 and i % 5 == 0) or (i == nparms - 1)`. -/
def psep (i n : ℕ) : Bool := (i != 0 && i % 5 == 0) || (i == n - 1)

/-- The newline/comma decision after simdata value `j` of a row of `jmax`
in `writetofile`: `(j != 0 and j % 10 == 0) or (j == jmax - 1)`. -/
def dsep (j n : ℕ) : Bool := (j != 0 && j % 10 == 0) || (j == n - 1)

/-- The parameter-section writes of `writetofile`: for each
`i in range(nparms)`, the value then `'\n'` or `', '` per `psep`. -/
def paramTokens (simparms : List String) : List String :=
  (List.range simparms.length).flatMap (fun i =>
    [simparms.getD i "", if psep i simparms.length then "\n" else ", "])

/-- The writes for one simdata row: for each `j in range(jmax)`, the value
then `'\n'` or `', '` per `dsep`. -/
def rowTokens (row : List String) (jmax : ℕ) : List String :=
  (List.range jmax).flatMap (fun j =>
    [row.getD j "", if dsep j jmax then "\n" else ", "])

/-- The simdata-section writes of `writetofile`: per row `i`, a
`'# i\n'` marker then the row's tokens. -/
def dataTokens (simdata : List (List String)) (jmax : ℕ) : List String :=
  (List.range simdata.length).flatMap (fun i =>
    ("# " ++ toString i ++ "\n") :: rowTokens (simdata.getD i []) jmax)

/-- The terminating separator line of `writetofile`. -/
def dashLine : String :=
  "#-------------------------------------------------------------------------------------------------\n"

/-- Embedding of `writetofile(fout, simparms, simdata, temperature)` as
the ordered list of strings passed to `fout.write`.  Values are
pre-formatted strings (`'{}'.format` of a float is external I/O
formatting); `imax, jmax = simdata.shape`. -/
def writetofile (simparms : List String) (simdata : List (List String))
    (temperature : String) : List String :=
  ["# TEMPERATURE\n" ++ temperature ++ "\n",
    "# PARAMETERS (" ++ toString simparms.length ++ ")\n"]
  ++ (paramTokens simparms
    ++ (["# SIMDATA (" ++ toString simdata.length ++ ","
        ++ toString (simdata.headD []).length ++ ")\n"]
      ++ (dataTokens simdata (simdata.headD []).length
        ++ [dashLine])))

/-- Mean of a sample series of length `n`, as the spec writes it. -/
def specMean (f : ℕ → ℚ) (n : ℕ) : ℚ := (∑ j in Finset.range n, f j) / (n : ℚ)

/-- Sample variance with Bessel's correction (ddof = 1), as the spec
writes it. -/
def specVar (f : ℕ → ℚ) (n : ℕ) : ℚ :=
  (∑ j in Finset.range n, (f j - specMean f n) ^ 2) / ((n : ℚ) - 1)

/-- The claim's first-order Saltelli estimator for one observable column:
`S = ( sum(yA*yC_k)/(n-1) - mean(yA*yB) ) / var(yA)`. -/
def specS (a b c : ℕ → ℚ) (n : ℕ) : ℚ :=
  ((∑ j in Finset.range n, a j * c j) / ((n : ℚ) - 1)
    - specMean (fun j => a j * b j) n) / specVar a n

/-- The claim's total-effect Saltelli estimator for one observable column:
`ST = 1 - ( sum(yB*yC_k)/(n-1) - mean(yB)^2 ) / var(yB)`. -/
def specST (a b c : ℕ → ℚ) (n : ℕ) : ℚ :=
  1 - ((∑ j in Finset.range n, b j * c j) / ((n : ℚ) - 1)
    - (specMean b n) ^ 2) / specVar b n

/-- First row of a nonempty matrix has the common row length. -/
theorem headD_length {α : Type} {A : List (List α)} {n p : ℕ} (hA : A.length = n)
    (hAr : ∀ r ∈ A, r.length = p) (hn : 1 ≤ n) : (A.headD []).length = p := by
  cases A with
  | nil => simp at hA; omega
  | cons a t => exact hAr a (by simp)

theorem headD_mem {α : Type} {A : List (List α)} {n : ℕ} (hA : A.length = n)
    (hn : 1 ≤ n) : A.headD [] ∈ A := by
  cases A with
  | nil => simp at hA; omega
  | cons a t => simp

theorem getD_row_length {α : Type} {rows : List (List α)} {m : ℕ}
    (h : ∀ r ∈ rows, r.length = m) {j : ℕ} (hj : j < rows.length) :
    (rows.getD j []).length = m := by
  rw [List.getD_eq_getElem _ _ hj]
  exact h _ (List.getElem_mem hj)

theorem getD_map_lt {α β : Type} (f : α → β) (u : List α) (c : ℕ) (d : α) (d2 : β)
    (hc : c < u.length) : (u.map f).getD c d2 = f (u.getD c d) := by
  rw [List.getD_eq_getElem _ _ (by simpa using hc), List.getD_eq_getElem _ _ hc]
  simp

theorem getD_zipWith_lt {α β γ : Type} (f : α → β → γ) (u : List α) (v : List β)
    (c : ℕ) (du : α) (dv : β) (dg : γ) (hu : c < u.length) (hv : c < v.length) :
    (List.zipWith f u v).getD c dg = f (u.getD c du) (v.getD c dv) := by
  rw [List.getD_eq_getElem _ _ (by simp; omega), List.getD_eq_getElem _ _ hu,
    List.getD_eq_getElem _ _ hv]
  simp

theorem colSum_nil (m : ℕ) : colSum m [] = List.replicate m 0 := rfl

theorem colSum_cons (m : ℕ) (r : List ℚ) (t : List (List ℚ)) :
    colSum m (r :: t) = List.zipWith (· + ·) r (colSum m t) := rfl

theorem colSum_length (m : ℕ) (rows : List (List ℚ)) (h : ∀ r ∈ rows, r.length = m) :
    (colSum m rows).length = m := by
  induction rows with
  | nil => simp [colSum_nil]
  | cons r t ih =>
    rw [colSum_cons, List.length_zipWith, h r (by simp),
      ih (fun x hx => h x (List.mem_cons_of_mem _ hx))]
    exact Nat.min_self m

theorem list_sum_eq_range (l : List ℚ) :
    l.sum = ∑ j in Finset.range l.length, l.getD j 0 := by
  induction l with
  | nil => simp
  | cons a t ih =>
    rw [List.sum_cons, ih, List.length_cons, Finset.sum_range_succ']
    simp [add_comm]

theorem colSum_getD (m : ℕ) (rows : List (List ℚ)) (h : ∀ r ∈ rows, r.length = m)
    (c : ℕ) (hc : c < m) :
    (colSum m rows).getD c 0 = (rows.map (fun r => r.getD c 0)).sum := by
  induction rows with
  | nil =>
    rw [colSum_nil, List.getD_eq_getElem _ _ (by simpa using hc)]
    simp
  | cons r t ih =>
    have ht : ∀ x ∈ t, x.length = m := fun x hx => h x (List.mem_cons_of_mem _ hx)
    rw [colSum_cons,
      getD_zipWith_lt _ _ _ _ 0 0 0 (by rw [h r (by simp)]; exact hc)
        (by rw [colSum_length m t ht]; exact hc),
      ih ht]
    simp

theorem colSum_getD_range (m n : ℕ) (rows : List (List ℚ))
    (h : ∀ r ∈ rows, r.length = m) (hlen : rows.length = n) (c : ℕ) (hc : c < m) :
    (colSum m rows).getD c 0 = ∑ j in Finset.range n, (rows.getD j []).getD c 0 := by
  rw [colSum_getD m rows h c hc, list_sum_eq_range, List.length_map, hlen]
  refine Finset.sum_congr rfl (fun j hj => ?_)
  have hj' : j < rows.length := by rw [hlen]; exact Finset.mem_range.mp hj
  exact getD_map_lt _ rows j [] 0 hj'

theorem matMulElem_length (x y : List (List ℚ)) :
    (matMulElem x y).length = min x.length y.length := by
  simp [matMulElem]

theorem matMulElem_mem_length {x y : List (List ℚ)} {m : ℕ}
    (hx : ∀ r ∈ x, r.length = m) (hy : ∀ r ∈ y, r.length = m) :
    ∀ r ∈ matMulElem x y, r.length = m := by
  intro r hr
  obtain ⟨i, hi, rfl⟩ := List.mem_iff_getElem.mp hr
  have hix : i < x.length := by
    rw [matMulElem_length] at hi; omega
  have hiy : i < y.length := by
    rw [matMulElem_length] at hi; omega
  simp only [matMulElem, List.getElem_zipWith, List.length_zipWith]
  rw [hx _ (List.getElem_mem hix), hy _ (List.getElem_mem hiy)]
  exact Nat.min_self m

theorem matMulElem_row (x y : List (List ℚ)) (j : ℕ)
    (hx : j < x.length) (hy : j < y.length) :
    (matMulElem x y).getD j [] = List.zipWith (· * ·) (x.getD j []) (y.getD j []) :=
  getD_zipWith_lt _ x y j [] [] [] hx hy

theorem matMulElem_getD (x y : List (List ℚ)) {m : ℕ} (j c : ℕ)
    (hx : j < x.length) (hy : j < y.length) (hc : c < m)
    (hxr : (x.getD j []).length = m) (hyr : (y.getD j []).length = m) :
    ((matMulElem x y).getD j []).getD c 0
      = (x.getD j []).getD c 0 * (y.getD j []).getD c 0 := by
  rw [matMulElem_row x y j hx hy]
  exact getD_zipWith_lt _ _ _ c 0 0 0 (by omega) (by omega)

theorem colAverage_length (m : ℕ) (rows : List (List ℚ))
    (h : ∀ r ∈ rows, r.length = m) : (colAverage m rows).length = m := by
  rw [colAverage, List.length_map]
  exact colSum_length m rows h

theorem colAverage_getD (m : ℕ) (rows : List (List ℚ))
    (h : ∀ r ∈ rows, r.length = m) (c : ℕ) (hc : c < m) :
    (colAverage m rows).getD c 0
      = (colSum m rows).getD c 0 / (rows.length : ℚ) :=
  getD_map_lt _ _ c 0 0 (by rw [colSum_length m rows h]; exact hc)

theorem colVar_sq_shape (m : ℕ) (rows : List (List ℚ))
    (h : ∀ r ∈ rows, r.length = m) :
    ∀ r ∈ rows.map (fun r => List.zipWith (fun x a => (x - a) ^ 2) r (colAverage m rows)),
      r.length = m := by
  intro r hr
  obtain ⟨s, hs, rfl⟩ := List.mem_map.mp hr
  rw [List.length_zipWith, h s hs, colAverage_length m rows h]
  exact Nat.min_self m

theorem colVar_length (m ddof : ℕ) (rows : List (List ℚ))
    (h : ∀ r ∈ rows, r.length = m) : (colVar m ddof rows).length = m := by
  rw [colVar, List.length_map]
  exact colSum_length m _ (colVar_sq_shape m rows h)

theorem colVar_getD (m ddof n : ℕ) (rows : List (List ℚ))
    (h : ∀ r ∈ rows, r.length = m) (hlen : rows.length = n) (c : ℕ) (hc : c < m) :
    (colVar m ddof rows).getD c 0
      = (∑ j in Finset.range n,
          ((rows.getD j []).getD c 0 - (colAverage m rows).getD c 0) ^ 2)
        / ((n : ℚ) - (ddof : ℚ)) := by
  rw [colVar]
  rw [getD_map_lt _ _ c 0 0 (by rw [colSum_length m _ (colVar_sq_shape m rows h)]; exact hc)]
  rw [colSum_getD_range m n _ (colVar_sq_shape m rows h) (by rw [List.length_map, hlen]) c hc,
    hlen]
  congr 1
  refine Finset.sum_congr rfl (fun j hj => ?_)
  have hj' : j < rows.length := by rw [hlen]; exact Finset.mem_range.mp hj
  rw [getD_map_lt _ rows j [] [] hj']
  exact getD_zipWith_lt _ _ _ c 0 0 0
    (by rw [getD_row_length h hj']; exact hc)
    (by rw [colAverage_length m rows h]; exact hc)

theorem colSum_matMulElem (x y : List (List ℚ)) (n m : ℕ)
    (hxl : x.length = n) (hxr : ∀ r ∈ x, r.length = m)
    (hyl : y.length = n) (hyr : ∀ r ∈ y, r.length = m) (c : ℕ) (hc : c < m) :
    (colSum m (matMulElem x y)).getD c 0
      = ∑ j in Finset.range n, (x.getD j []).getD c 0 * (y.getD j []).getD c 0 := by
  rw [colSum_getD_range m n _ (matMulElem_mem_length hxr hyr)
    (by rw [matMulElem_length, hxl, hyl]; exact Nat.min_self n) c hc]
  refine Finset.sum_congr rfl (fun j hj => ?_)
  have hj' : j < n := Finset.mem_range.mp hj
  exact matMulElem_getD x y j c (by omega) (by omega) hc
    (getD_row_length hxr (by omega)) (getD_row_length hyr (by omega))

theorem colAverage_eq_specMean (x : List (List ℚ)) (n m : ℕ)
    (hxl : x.length = n) (hxr : ∀ r ∈ x, r.length = m) (c : ℕ) (hc : c < m) :
    (colAverage m x).getD c 0 = specMean (fun j => (x.getD j []).getD c 0) n := by
  rw [colAverage_getD m x hxr c hc, colSum_getD_range m n x hxr hxl c hc, hxl, specMean]

theorem colAverage_matMul_eq (x y : List (List ℚ)) (n m : ℕ)
    (hxl : x.length = n) (hxr : ∀ r ∈ x, r.length = m)
    (hyl : y.length = n) (hyr : ∀ r ∈ y, r.length = m) (c : ℕ) (hc : c < m) :
    (colAverage m (matMulElem x y)).getD c 0
      = specMean (fun j => (x.getD j []).getD c 0 * (y.getD j []).getD c 0) n := by
  rw [colAverage_getD m _ (matMulElem_mem_length hxr hyr) c hc,
    colSum_matMulElem x y n m hxl hxr hyl hyr c hc,
    matMulElem_length, hxl, hyl, Nat.min_self, specMean]

theorem colVar_eq_specVar (x : List (List ℚ)) (n m : ℕ)
    (hxl : x.length = n) (hxr : ∀ r ∈ x, r.length = m) (c : ℕ) (hc : c < m) :
    (colVar m 1 x).getD c 0 = specVar (fun j => (x.getD j []).getD c 0) n := by
  rw [colVar_getD m 1 n x hxr hxl c hc, specVar]
  congr 1
  refine Finset.sum_congr rfl (fun j hj => ?_)
  congr 2
  exact colAverage_eq_specMean x n m hxl hxr c hc

theorem map_fin_inj : ∀ {l l2 : List ℚ}, l.map PF.fin = l2.map PF.fin → l = l2
  | [], [], _ => rfl
  | [], _ :: _, h => by simp at h
  | _ :: _, [], h => by simp at h
  | a :: t, b :: s, h => by
    simp only [List.map_cons, List.cons.injEq, PF.fin.injEq] at h
    rw [h.1, map_fin_inj h.2]

/-- A squared difference divided by (positive) zero is `inf` or `nan`, so
the clamp loop replaces it by `1e-100`. -/
theorem clamp_of_zero_den (s : PF) :
    (if (PF.div (PF.mul (PF.sub s (PF.fin 0)) (PF.sub s (PF.fin 0)))
          (PF.fin 0)).isinf
        || (PF.div (PF.mul (PF.sub s (PF.fin 0)) (PF.sub s (PF.fin 0)))
          (PF.fin 0)).isnan
      then PF.fin clampConst
      else PF.div (PF.mul (PF.sub s (PF.fin 0)) (PF.sub s (PF.fin 0)))
        (PF.fin 0)) = PF.fin clampConst := by
  cases s with
  | fin a =>
    by_cases ha : a = 0
    · subst ha
      simp [PF.sub, PF.mul, PF.div, PF.isnan]
    · have hpos : 0 < a * a := mul_self_pos.mpr ha
      simp [PF.sub, PF.mul, PF.div, PF.isinf, hpos]
  | inf => simp [PF.sub, PF.mul, PF.div, PF.isinf]
  | ninf => simp [PF.sub, PF.mul, PF.div, PF.isinf]
  | nan => simp [PF.sub, PF.mul, PF.div, PF.isnan]

theorem pfSum_const (l : List PF) (q : ℚ) (h : ∀ x ∈ l, x = PF.fin q) :
    pfSum l = PF.fin (l.length * q) := by
  induction l with
  | nil => simp [pfSum]
  | cons a t ih =>
    have ha : a = PF.fin q := h a (by simp)
    have ht := ih (fun x hx => h x (List.mem_cons_of_mem _ hx))
    simp only [pfSum, List.foldr_cons] at ht ⊢
    rw [ha, ht]
    simp only [PF.add, List.length_cons]
    congr 1
    push_cast
    ring

theorem pfSum_map_fin (l : List ℚ) : pfSum (l.map PF.fin) = PF.fin l.sum := by
  induction l with
  | nil => simp [pfSum]
  | cons a t ih =>
    simp only [pfSum, List.foldr_cons, List.map_cons] at ih ⊢
    rw [ih]
    simp [PF.add]

theorem clampObj_map_fin (l : List ℚ) : clampObj (l.map PF.fin) = l.map PF.fin := by
  simp [clampObj, List.map_map, PF.isinf, PF.isnan]

theorem zipWith_fin_op (f : PF → PF → PF) (g : ℚ → ℚ → ℚ)
    (hfg : ∀ a b, f (PF.fin a) (PF.fin b) = PF.fin (g a b)) (l l2 : List ℚ) :
    List.zipWith f (l.map PF.fin) (l2.map PF.fin)
      = (List.zipWith g l l2).map PF.fin := by
  rw [List.zipWith_map, List.map_zipWith]
  simp only [hfg]

theorem zipWith_div_fin (d v : List ℚ) (hv : ∀ x ∈ v, x ≠ 0) :
    List.zipWith (fun a b => PF.div (PF.fin a) (PF.fin b)) d v
      = (List.zipWith (fun a b => a / b) d v).map PF.fin := by
  induction d generalizing v with
  | nil => simp
  | cons a t ih =>
    cases v with
    | nil => simp
    | cons b s =>
      have hb : b ≠ 0 := hv b (by simp)
      simp only [List.zipWith_cons_cons, List.map_cons]
      rw [ih s (fun x hx => hv x (List.mem_cons_of_mem _ hx))]
      simp [PF.div, hb]

theorem getD_set_ne_q (l : List ℚ) (i j : ℕ) (a : ℚ) (h : i ≠ j) :
    (l.set i a).getD j 0 = l.getD j 0 := by
  rw [List.getD_eq_getElem?_getD, List.getD_eq_getElem?_getD,
    List.getElem?_set_ne h]

theorem getD_set_self_q (l : List ℚ) (i : ℕ) (a : ℚ) (h : i < l.length) :
    (l.set i a).getD i 0 = a := by
  rw [List.getD_eq_getElem _ _ (by simpa using h)]
  exact List.getElem_set_self (by simpa using h)

theorem setLoop_length (p : List ℚ) (idx : ℕ → ℕ) (val : ℕ → ℚ) :
    ∀ n, (setLoop p idx val n).length = p.length := by
  intro n
  induction n with
  | zero => rfl
  | succ m ih => rw [setLoop, List.length_set, ih]

theorem setLoop_getD_of_ne (p : List ℚ) (idx : ℕ → ℕ) (val : ℕ → ℚ)
    (n j : ℕ) (h : ∀ i < n, idx i ≠ j) :
    (setLoop p idx val n).getD j 0 = p.getD j 0 := by
  induction n with
  | zero => rfl
  | succ m ih =>
    rw [setLoop, getD_set_ne_q _ _ _ _ (h m (by omega))]
    exact ih (fun i hi => h i (by omega))

theorem setLoop_getD_written (p : List ℚ) (idx : ℕ → ℕ) (val : ℕ → ℚ)
    (n i : ℕ) (hi : i < n) (hb : idx i < p.length)
    (hlater : ∀ k, i < k → k < n → idx k ≠ idx i) :
    (setLoop p idx val n).getD (idx i) 0 = val i := by
  induction n with
  | zero => omega
  | succ m ih =>
    rw [setLoop]
    by_cases him : i = m
    · subst him
      exact getD_set_self_q _ _ _ (by rw [setLoop_length]; exact hb)
    · rw [getD_set_ne_q _ _ _ _ (hlater m (by omega) (by omega))]
      exact ih (by omega) (fun k hk1 hk2 => hlater k hk1 (by omega))

theorem setLoop_mem (p : List ℚ) (idx : ℕ → ℕ) (val : ℕ → ℚ) (n : ℕ)
    (x : ℚ) (hx : x ∈ setLoop p idx val n) :
    x ∈ p ∨ ∃ i, i < n ∧ x = val i := by
  induction n with
  | zero => exact Or.inl hx
  | succ m ih =>
    rw [setLoop] at hx
    rcases List.mem_or_eq_of_mem_set hx with hx' | hx'
    · rcases ih hx' with h | ⟨i, hi, rfl⟩
      · exact Or.inl h
      · exact Or.inr ⟨i, by omega, rfl⟩
    · exact Or.inr ⟨m, by omega, hx'⟩

theorem roundF32pos_dyadic (aq : ℚ) :
    ∃ z e : ℤ, roundF32pos aq = (z : ℚ) * qpow2 e := by
  simp only [roundF32pos]
  split
  · exact ⟨1, 128, by push_cast; ring⟩
  · exact ⟨rne (aq / qpow2 (max (floorLog2 aq) (-126) - 23)),
      max (floorLog2 aq) (-126) - 23, rfl⟩

theorem roundF32_dyadic (q : ℚ) :
    ∃ z e : ℤ, roundF32 q = (z : ℚ) * qpow2 e := by
  rw [roundF32]
  by_cases h0 : q = 0
  · exact ⟨0, 0, by simp [h0]⟩
  · rw [if_neg h0]
    by_cases hneg : q < 0
    · obtain ⟨z, e, hz⟩ := roundF32pos_dyadic (-q)
      exact ⟨-z, e, by rw [if_pos hneg, hz]; push_cast; ring⟩
    · obtain ⟨z, e, hz⟩ := roundF32pos_dyadic q
      exact ⟨z, e, by rw [if_neg hneg, hz]⟩

theorem dyadic_ne_tenth (z e : ℤ) : (z : ℚ) * qpow2 e ≠ 1/10 := by
  intro h
  cases e with
  | ofNat k =>
    rw [qpow2] at h
    have h10 : ((z * 2 ^ k * 10 : ℤ) : ℚ) = 1 := by
      push_cast
      push_cast at h
      linarith
    have hZ : (z * 2 ^ k * 10 : ℤ) = 1 := by exact_mod_cast h10
    have hdvd : (10 : ℤ) ∣ 1 := ⟨z * 2 ^ k, by linarith⟩
    norm_num at hdvd
  | negSucc k =>
    rw [qpow2] at h
    have hpow : ((2 ^ (k + 1) : ℕ) : ℚ) ≠ 0 := by positivity
    have h10 : ((z * 10 : ℤ) : ℚ) = ((2 ^ (k + 1) : ℕ) : ℚ) := by
      push_cast
      push_cast at h
      field_simp at h
      linarith
    have hZ : (z * 10 : ℤ) = 2 ^ (k + 1) := by exact_mod_cast h10
    have h5 : Prime (5 : ℤ) := by
      rw [Int.prime_iff_natAbs_prime]
      norm_num
    have hdvd : (5 : ℤ) ∣ 2 ^ (k + 1) := ⟨2 * z, by linarith⟩
    have := h5.dvd_of_dvd_pow hdvd
    norm_num at this

theorem length_flatMap_const {β : Type} (f : ℕ → List β) (L : ℕ) :
    ∀ n, (∀ i, i < n → (f i).length = L) →
      ((List.range n).flatMap f).length = n * L := by
  intro n
  induction n with
  | zero => simp
  | succ m ih =>
    intro hL
    rw [List.range_succ, List.flatMap_append, List.length_append,
      ih (fun i hi => hL i (by omega))]
    simp only [List.flatMap_cons, List.flatMap_nil, List.append_nil]
    rw [hL m (by omega)]
    ring

theorem flatMap_blocks_getElem? {β : Type} (f : ℕ → List β) (L i k : ℕ) :
    ∀ n, (∀ j, j < n → (f j).length = L) → i < n → k < L →
      ((List.range n).flatMap f)[i * L + k]? = (f i)[k]? := by
  intro n
  induction n with
  | zero => intro _ hi _; omega
  | succ m ih =>
    intro hL hi hk
    rw [List.range_succ, List.flatMap_append]
    by_cases him : i < m
    · rw [List.getElem?_append_left]
      · exact ih (fun j hj => hL j (by omega)) him hk
      · rw [length_flatMap_const f L m (fun j hj => hL j (by omega))]
        have h2 : (i + 1) * L ≤ m * L := Nat.mul_le_mul_right L (by omega)
        have h3 : i * L + k < (i + 1) * L := by
          rw [Nat.add_mul, Nat.one_mul]
          omega
        omega
    · have him' : i = m := by omega
      subst him'
      rw [List.getElem?_append_right
        (by rw [length_flatMap_const f L i (fun j hj => hL j (by omega))]; omega)]
      rw [length_flatMap_const f L i (fun j hj => hL j (by omega))]
      have hsub : i * L + k - i * L = k := by omega
      rw [hsub]
      simp

theorem if_bool_prop {α : Type} (c : Bool) (P : Prop) [Decidable P]
    (h : c = true ↔ P) (a b : α) :
    (if c then a else b) = if P then a else b := by
  by_cases hp : P
  · rw [if_pos (h.mpr hp), if_pos hp]
  · rw [if_neg (fun hc => hp (h.mp hc)), if_neg hp]

theorem psep_iff (i n : ℕ) :
    psep i n = true ↔ ((i ≠ 0 ∧ i % 5 = 0) ∨ i = n - 1) := by
  simp [psep]

theorem dsep_iff (j n : ℕ) :
    dsep j n = true ↔ ((j ≠ 0 ∧ j % 10 = 0) ∨ j = n - 1) := by
  simp [dsep]

theorem paramTokens_length (simparms : List String) :
    (paramTokens simparms).length = simparms.length * 2 :=
  length_flatMap_const _ 2 simparms.length (fun _ _ => rfl)

theorem paramTokens_getElem? (simparms : List String) (i k : ℕ)
    (hi : i < simparms.length) (hk : k < 2) :
    (paramTokens simparms)[i * 2 + k]?
      = ([simparms.getD i "",
          if psep i simparms.length then "\n" else ", "] : List String)[k]? :=
  flatMap_blocks_getElem? _ 2 i k simparms.length (fun _ _ => rfl) hi hk

theorem rowTokens_length (row : List String) (jmax : ℕ) :
    (rowTokens row jmax).length = jmax * 2 :=
  length_flatMap_const _ 2 jmax (fun _ _ => rfl)

theorem rowTokens_getElem? (row : List String) (jmax j k : ℕ)
    (hj : j < jmax) (hk : k < 2) :
    (rowTokens row jmax)[j * 2 + k]?
      = ([row.getD j "", if dsep j jmax then "\n" else ", "] : List String)[k]? :=
  flatMap_blocks_getElem? _ 2 j k jmax (fun _ _ => rfl) hj hk

theorem dataTokens_getElem? (simdata : List (List String)) (jmax i k : ℕ)
    (hi : i < simdata.length) (hk : k < 1 + 2 * jmax) :
    (dataTokens simdata jmax)[i * (1 + 2 * jmax) + k]?
      = (("# " ++ toString i ++ "\n") :: rowTokens (simdata.getD i []) jmax)[k]? := by
  have hlen : ∀ j, j < simdata.length →
      ((("# " ++ toString j ++ "\n") :: rowTokens (simdata.getD j []) jmax) :
        List String).length = 1 + 2 * jmax := by
    intro j _
    rw [List.length_cons, rowTokens_length]
    omega
  exact flatMap_blocks_getElem? _ (1 + 2 * jmax) i k simdata.length hlen hi hk

/-- C1: `genCmtx(A, B)` on (n, p) matrices returns a (p, n, p) array whose
`k`-th slice agrees with column `k` of `A` in column `k` and with `B` in
every other column. -/
theorem genCmtx_shape_and_columns (A B : List (List ℚ)) (n p : ℕ)
    (hn : 1 ≤ n) (hp : 1 ≤ p)
    (hA : A.length = n) (hAr : ∀ r ∈ A, r.length = p)
    (hB : B.length = n) (hBr : ∀ r ∈ B, r.length = p) :
    (genCmtx A B).length = p ∧
    ∀ k < p,
      ((genCmtx A B).getD k []).length = n ∧
      (∀ r < n, (((genCmtx A B).getD k []).getD r []).length = p) ∧
      (∀ r < n, (((genCmtx A B).getD k []).getD r []).getD k 0
          = (A.getD r []).getD k 0) ∧
      ∀ r < n, ∀ j < p, j ≠ k →
        (((genCmtx A B).getD k []).getD r []).getD j 0
          = (B.getD r []).getD j 0 := by
  have hhead : (A.headD []).length = p := headD_length hA hAr hn
  have hlen : (genCmtx A B).length = p := by
    simp only [genCmtx, List.length_map, List.length_range]
    exact hhead
  refine ⟨hlen, ?_⟩
  intro k hk
  have hk' : k < (genCmtx A B).length := by omega
  have hslice : (genCmtx A B).getD k [] = setCol B k (getCol A k) := by
    rw [List.getD_eq_getElem _ _ hk']
    simp only [genCmtx, List.getElem_map, List.getElem_range]
  have hColLen : (getCol A k).length = n := by simp [getCol, hA]
  have hSliceLen : (setCol B k (getCol A k)).length = n := by
    simp [setCol, hB, hColLen]
  have hrow : ∀ r < n,
      (setCol B k (getCol A k)).getD r [] = (B.getD r []).set k ((A.getD r []).getD k 0) := by
    intro r hr
    have hrB : r < B.length := by omega
    have hrA : r < A.length := by omega
    have hrz : r < (setCol B k (getCol A k)).length := by omega
    rw [List.getD_eq_getElem _ _ hrz, List.getD_eq_getElem _ _ hrB,
      List.getD_eq_getElem _ _ hrA]
    simp [setCol, List.getElem_zipWith, getCol, List.getElem_map]
  have hBrow : ∀ r < n, (B.getD r []).length = p := by
    intro r hr
    have hrB : r < B.length := by omega
    rw [List.getD_eq_getElem _ _ hrB]
    exact hBr _ (List.getElem_mem hrB)
  refine ⟨by rw [hslice]; exact hSliceLen, ?_, ?_, ?_⟩
  · intro r hr
    rw [hslice, hrow r hr, List.length_set]
    exact hBrow r hr
  · intro r hr
    rw [hslice, hrow r hr]
    have hkB : k < ((B.getD r []).set k ((A.getD r []).getD k 0)).length := by
      rw [List.length_set, hBrow r hr]; omega
    rw [List.getD_eq_getElem _ _ hkB]
    exact List.getElem_set_self hkB
  · intro r hr j hj hjk
    rw [hslice, hrow r hr]
    have hjs : j < ((B.getD r []).set k ((A.getD r []).getD k 0)).length := by
      rw [List.length_set, hBrow r hr]; omega
    have hjB : j < (B.getD r []).length := by rw [hBrow r hr]; omega
    rw [List.getD_eq_getElem _ _ hjs, List.getD_eq_getElem _ _ hjB]
    exact List.getElem_set_ne (by omega) hjs

/-- Witness for C1 at the spec's concrete 4×2 matrices. -/
theorem genCmtx_shape_and_columns_witness :
    (1 ≤ 4 ∧ 1 ≤ 2 ∧
      ([[(1:ℚ)/10, 2/10], [3/10, 4/10], [5/10, 6/10], [7/10, 8/10]] : List (List ℚ)).length = 4) ∧
    ((genCmtx [[(1:ℚ)/10, 2/10], [3/10, 4/10], [5/10, 6/10], [7/10, 8/10]]
        [[(9:ℚ)/10, 8/10], [7/10, 6/10], [5/10, 4/10], [3/10, 2/10]]).length = 2 ∧
      ∀ k < 2,
        ((genCmtx [[(1:ℚ)/10, 2/10], [3/10, 4/10], [5/10, 6/10], [7/10, 8/10]]
            [[(9:ℚ)/10, 8/10], [7/10, 6/10], [5/10, 4/10], [3/10, 2/10]]).getD k []).length = 4 ∧
        (∀ r < 4, (((genCmtx [[(1:ℚ)/10, 2/10], [3/10, 4/10], [5/10, 6/10], [7/10, 8/10]]
            [[(9:ℚ)/10, 8/10], [7/10, 6/10], [5/10, 4/10], [3/10, 2/10]]).getD k []).getD r []).length = 2) ∧
        (∀ r < 4, (((genCmtx [[(1:ℚ)/10, 2/10], [3/10, 4/10], [5/10, 6/10], [7/10, 8/10]]
            [[(9:ℚ)/10, 8/10], [7/10, 6/10], [5/10, 4/10], [3/10, 2/10]]).getD k []).getD r []).getD k 0
            = (([[(1:ℚ)/10, 2/10], [3/10, 4/10], [5/10, 6/10], [7/10, 8/10]] : List (List ℚ)).getD r []).getD k 0) ∧
        ∀ r < 4, ∀ j < 2, j ≠ k →
          (((genCmtx [[(1:ℚ)/10, 2/10], [3/10, 4/10], [5/10, 6/10], [7/10, 8/10]]
              [[(9:ℚ)/10, 8/10], [7/10, 6/10], [5/10, 4/10], [3/10, 2/10]]).getD k []).getD r []).getD j 0
            = (([[(9:ℚ)/10, 8/10], [7/10, 6/10], [5/10, 4/10], [3/10, 2/10]] : List (List ℚ)).getD r []).getD j 0) :=
  ⟨⟨by decide, by decide, by decide⟩,
    genCmtx_shape_and_columns
      [[(1:ℚ)/10, 2/10], [3/10, 4/10], [5/10, 6/10], [7/10, 8/10]]
      [[(9:ℚ)/10, 8/10], [7/10, 6/10], [5/10, 4/10], [3/10, 2/10]]
      4 2 (by decide) (by decide) (by decide) (by decide) (by decide) (by decide)⟩

/-- C2: `getvarsens(yA, yB, yC)` on (n, m) outputs and a (p, n, m) `yC`
returns (S, ST) of shape (p, m), where per observable column `S[k]`
and `ST[k]` are the Saltelli estimators of the claim, with Bessel-corrected
(ddof = 1) variances, `yA`'s variance as denominator for `S` and `yB`'s for
`ST`. -/
theorem getvarsens_matches_saltelli (yA yB : List (List ℚ)) (yC : List (List (List ℚ)))
    (n m p : ℕ) (hn : 2 ≤ n) (hp : 1 ≤ p) (hm : 1 ≤ m)
    (hAl : yA.length = n) (hAr : ∀ r ∈ yA, r.length = m)
    (hBl : yB.length = n) (hBr : ∀ r ∈ yB, r.length = m)
    (hCl : yC.length = p)
    (hCs : ∀ s ∈ yC, s.length = n ∧ ∀ r ∈ s, r.length = m) :
    ((getvarsens yA yB yC).1.length = p ∧ (getvarsens yA yB yC).2.length = p) ∧
    (∀ k < p, ((getvarsens yA yB yC).1.getD k []).length = m ∧
              ((getvarsens yA yB yC).2.getD k []).length = m) ∧
    ∀ k < p, ∀ c < m,
      ((getvarsens yA yB yC).1.getD k []).getD c 0
        = specS (fun j => (yA.getD j []).getD c 0) (fun j => (yB.getD j []).getD c 0)
            (fun j => ((yC.getD k []).getD j []).getD c 0) n ∧
      ((getvarsens yA yB yC).2.getD k []).getD c 0
        = specST (fun j => (yA.getD j []).getD c 0) (fun j => (yB.getD j []).getD c 0)
            (fun j => ((yC.getD k []).getD j []).getD c 0) n := by
  have hhead : yC.headD [] ∈ yC := headD_mem hCl hp
  have hns : (yC.headD []).length = n := (hCs _ hhead).1
  have hnobs : ((yC.headD []).headD []).length = m :=
    headD_length hns (hCs _ hhead).2 (by omega)
  have hCk : ∀ k, k < p → (yC.getD k []).length = n ∧
      ∀ r ∈ (yC.getD k []), r.length = m := by
    intro k hk
    have hk' : k < yC.length := by omega
    rw [List.getD_eq_getElem _ _ hk']
    exact hCs _ (List.getElem_mem hk')
  have h1 : (getvarsens yA yB yC).1 = (List.range p).map (fun i =>
      List.zipWith (· / ·)
        (List.zipWith (· - ·)
          ((colSum m (matMulElem yA (yC.getD i []))).map
            (fun s => s / ((n : ℚ) - 1)))
          (colAverage m (matMulElem yA yB)))
        (colVar m 1 yA)) := by
    simp only [getvarsens, hCl, hns, hnobs]
  have h2 : (getvarsens yA yB yC).2 = (List.range p).map (fun i =>
      List.zipWith (fun a b => 1 - a / b)
        (List.zipWith (· - ·)
          ((colSum m (matMulElem yB (yC.getD i []))).map
            (fun s => s / ((n : ℚ) - 1)))
          ((colAverage m yB).map (fun x => x ^ 2)))
        (colVar m 1 yB)) := by
    simp only [getvarsens, hCl, hns, hnobs]
  have hrowS : ∀ k, k < p → (getvarsens yA yB yC).1.getD k [] =
      List.zipWith (· / ·)
        (List.zipWith (· - ·)
          ((colSum m (matMulElem yA (yC.getD k []))).map
            (fun s => s / ((n : ℚ) - 1)))
          (colAverage m (matMulElem yA yB)))
        (colVar m 1 yA) := by
    intro k hk
    rw [h1, List.getD_eq_getElem _ _ (by simpa using hk)]
    simp only [List.getElem_map, List.getElem_range]
  have hrowT : ∀ k, k < p → (getvarsens yA yB yC).2.getD k [] =
      List.zipWith (fun a b => 1 - a / b)
        (List.zipWith (· - ·)
          ((colSum m (matMulElem yB (yC.getD k []))).map
            (fun s => s / ((n : ℚ) - 1)))
          ((colAverage m yB).map (fun x => x ^ 2)))
        (colVar m 1 yB) := by
    intro k hk
    rw [h2, List.getD_eq_getElem _ _ (by simpa using hk)]
    simp only [List.getElem_map, List.getElem_range]
  have hUlA : ∀ k, k < p →
      ((colSum m (matMulElem yA (yC.getD k []))).map
        (fun s => s / ((n : ℚ) - 1))).length = m := by
    intro k hk
    rw [List.length_map]
    exact colSum_length m _ (matMulElem_mem_length hAr (hCk k hk).2)
  have hUlB : ∀ k, k < p →
      ((colSum m (matMulElem yB (yC.getD k []))).map
        (fun s => s / ((n : ℚ) - 1))).length = m := by
    intro k hk
    rw [List.length_map]
    exact colSum_length m _ (matMulElem_mem_length hBr (hCk k hk).2)
  have hEsl : (colAverage m (matMulElem yA yB)).length = m :=
    colAverage_length m _ (matMulElem_mem_length hAr hBr)
  have hEstl : ((colAverage m yB).map (fun x => x ^ 2)).length = m := by
    rw [List.length_map]
    exact colAverage_length m _ hBr
  have hVAl : (colVar m 1 yA).length = m := colVar_length m 1 yA hAr
  have hVBl : (colVar m 1 yB).length = m := colVar_length m 1 yB hBr
  refine ⟨⟨by rw [h1]; simp, by rw [h2]; simp⟩, ?_, ?_⟩
  · intro k hk
    constructor
    · rw [hrowS k hk, List.length_zipWith, List.length_zipWith,
        hUlA k hk, hEsl, hVAl]
      omega
    · rw [hrowT k hk, List.length_zipWith, List.length_zipWith,
        hUlB k hk, hEstl, hVBl]
      omega
  · intro k hk c hc
    have hCkl : (yC.getD k []).length = n := (hCk k hk).1
    have hCkr : ∀ r ∈ (yC.getD k []), r.length = m := (hCk k hk).2
    constructor
    · rw [hrowS k hk,
        getD_zipWith_lt _ _ _ c 0 0 0
          (by rw [List.length_zipWith, hUlA k hk, hEsl]; omega)
          (by rw [hVAl]; omega),
        getD_zipWith_lt _ _ _ c 0 0 0
          (by rw [hUlA k hk]; omega) (by rw [hEsl]; omega),
        getD_map_lt _ _ c 0 0
          (by rw [colSum_length m _ (matMulElem_mem_length hAr hCkr)]; omega),
        colSum_matMulElem yA (yC.getD k []) n m hAl hAr hCkl hCkr c hc,
        colAverage_matMul_eq yA yB n m hAl hAr hBl hBr c hc,
        colVar_eq_specVar yA n m hAl hAr c hc, specS]
    · rw [hrowT k hk,
        getD_zipWith_lt _ _ _ c 0 0 0
          (by rw [List.length_zipWith, hUlB k hk, hEstl]; omega)
          (by rw [hVBl]; omega),
        getD_zipWith_lt _ _ _ c 0 0 0
          (by rw [hUlB k hk]; omega) (by rw [hEstl]; omega),
        getD_map_lt _ _ c 0 0
          (by rw [colSum_length m _ (matMulElem_mem_length hBr hCkr)]; omega),
        colSum_matMulElem yB (yC.getD k []) n m hBl hBr hCkl hCkr c hc,
        getD_map_lt _ _ c 0 0 (by rw [colAverage_length m _ hBr]; omega),
        colAverage_eq_specMean yB n m hBl hBr c hc,
        colVar_eq_specVar yB n m hBl hBr c hc, specST]

/-- Witness for C2 at n = 2, m = 1, p = 1. -/
theorem getvarsens_matches_saltelli_witness :
    (2 ≤ 2 ∧ 1 ≤ 1 ∧
      ([[(1:ℚ)], [3]] : List (List ℚ)).length = 2 ∧
      (∀ r ∈ ([[(1:ℚ)], [3]] : List (List ℚ)), r.length = 1) ∧
      ([[(2:ℚ)], [4]] : List (List ℚ)).length = 2 ∧
      ([[[(5:ℚ)], [6]]] : List (List (List ℚ))).length = 1) ∧
    (((getvarsens [[(1:ℚ)], [3]] [[2], [4]] [[[5], [6]]]).1.length = 1 ∧
      (getvarsens [[(1:ℚ)], [3]] [[2], [4]] [[[5], [6]]]).2.length = 1) ∧
    (∀ k < 1, ((getvarsens [[(1:ℚ)], [3]] [[2], [4]] [[[5], [6]]]).1.getD k []).length = 1 ∧
              ((getvarsens [[(1:ℚ)], [3]] [[2], [4]] [[[5], [6]]]).2.getD k []).length = 1) ∧
    ∀ k < 1, ∀ c < 1,
      ((getvarsens [[(1:ℚ)], [3]] [[2], [4]] [[[5], [6]]]).1.getD k []).getD c 0
        = specS (fun j => (([[(1:ℚ)], [3]] : List (List ℚ)).getD j []).getD c 0)
            (fun j => (([[(2:ℚ)], [4]] : List (List ℚ)).getD j []).getD c 0)
            (fun j => ((([[[(5:ℚ)], [6]]] : List (List (List ℚ))).getD k []).getD j []).getD c 0) 2 ∧
      ((getvarsens [[(1:ℚ)], [3]] [[2], [4]] [[[5], [6]]]).2.getD k []).getD c 0
        = specST (fun j => (([[(1:ℚ)], [3]] : List (List ℚ)).getD j []).getD c 0)
            (fun j => (([[(2:ℚ)], [4]] : List (List ℚ)).getD j []).getD c 0)
            (fun j => ((([[[(5:ℚ)], [6]]] : List (List (List ℚ))).getD k []).getD j []).getD c 0) 2) :=
  ⟨⟨by decide, by decide, by decide, by decide, by decide, by decide⟩,
    getvarsens_matches_saltelli [[(1:ℚ)], [3]] [[2], [4]] [[[5], [6]]] 2 1 1
      (by decide) (by decide) (by decide) (by decide) (by decide)
      (by decide) (by decide) (by decide) (by decide)⟩

/-- C6: min-max normalization in `parmeval` (`norm=True`) never alters the
time axis: row 0 of the array passed to `compare_data` equals row 0 of the
original simulation output, and every later row is rescaled by its own min
and max. -/
theorem normalizeOut_time_row (out0 : List (List ℚ)) (hne : 1 ≤ out0.length) :
    (normalizeOut out0).length = out0.length ∧
    (normalizeOut out0).getD 0 [] = out0.getD 0 [] ∧
    ∀ i, 1 ≤ i → i < out0.length →
      rowMin (out0.getD i []) ≠ rowMax (out0.getD i []) →
      (normalizeOut out0).getD i []
        = (out0.getD i []).map (fun x =>
            (x - rowMin (out0.getD i []))
              / (rowMax (out0.getD i []) - rowMin (out0.getD i []))) := by
  have hlen : (normalizeOut out0).length = out0.length := by
    simp [normalizeOut]
  refine ⟨hlen, ?_, ?_⟩
  · have h0 : 0 < (normalizeOut out0).length := by omega
    rw [List.getD_eq_getElem _ _ h0]
    simp only [normalizeOut]
    exact List.getElem_set_self (by simpa [normalizeOut] using h0)
  · intro i h1 h2 _hminmax
    have key : (normalizeOut out0)[i]? = (out0.map (fun r =>
        r.map (fun x => (x - rowMin r) / (rowMax r - rowMin r))))[i]? := by
      simp only [normalizeOut]
      exact List.getElem?_set_ne (by omega)
    rw [List.getD_eq_getElem?_getD, key, List.getElem?_map,
      List.getElem?_eq_getElem h2, List.getD_eq_getElem _ _ h2]
    rfl

/-- Witness for C6 at `out0 = [[0,1,2],[1,3,5]]`. -/
theorem normalizeOut_time_row_witness :
    (1 ≤ ([[(0:ℚ), 1, 2], [1, 3, 5]] : List (List ℚ)).length) ∧
    ((normalizeOut [[(0:ℚ), 1, 2], [1, 3, 5]]).length
        = ([[(0:ℚ), 1, 2], [1, 3, 5]] : List (List ℚ)).length ∧
      (normalizeOut [[(0:ℚ), 1, 2], [1, 3, 5]]).getD 0 []
        = ([[(0:ℚ), 1, 2], [1, 3, 5]] : List (List ℚ)).getD 0 [] ∧
      ∀ i, 1 ≤ i → i < ([[(0:ℚ), 1, 2], [1, 3, 5]] : List (List ℚ)).length →
        rowMin (([[(0:ℚ), 1, 2], [1, 3, 5]] : List (List ℚ)).getD i [])
          ≠ rowMax (([[(0:ℚ), 1, 2], [1, 3, 5]] : List (List ℚ)).getD i []) →
        (normalizeOut [[(0:ℚ), 1, 2], [1, 3, 5]]).getD i []
          = (([[(0:ℚ), 1, 2], [1, 3, 5]] : List (List ℚ)).getD i []).map (fun x =>
              (x - rowMin (([[(0:ℚ), 1, 2], [1, 3, 5]] : List (List ℚ)).getD i []))
                / (rowMax (([[(0:ℚ), 1, 2], [1, 3, 5]] : List (List ℚ)).getD i [])
                  - rowMin (([[(0:ℚ), 1, 2], [1, 3, 5]] : List (List ℚ)).getD i [])))) :=
  ⟨by decide, normalizeOut_time_row [[(0:ℚ), 1, 2], [1, 3, 5]] (by decide)⟩

/-- C3 (failing branch): with `norm=False` and a nonempty B matrix,
`parmeval` reads the unbound local `outlistnorm` when it fills `yB`, so
the whole call raises `NameError` instead of comparing each row's own
simulation output. -/
theorem parmevalNoNorm_raises (ode : List ℚ → List (List ℚ))
    (cmp : List (List ℚ) → List ℚ) (A B : List (List ℚ))
    (C : List (List (List ℚ))) (hB : B ≠ []) :
    parmevalNoNorm ode cmp A B C = Except.error nameErrorMsg := by
  cases B with
  | nil => exact absurd rfl hB
  | cons b t => simp [parmevalNoNorm, mapExcept]

/-- Witness for C3's failing-branch theorem at a one-row B matrix. -/
theorem parmevalNoNorm_raises_witness :
    ([[(1:ℚ)]] ≠ ([] : List (List ℚ))) ∧
    parmevalNoNorm (fun _ => []) (fun _ => []) [] [[(1:ℚ)]] []
      = Except.error nameErrorMsg :=
  ⟨by decide, parmevalNoNorm_raises _ _ _ _ _ (by decide)⟩

/-- C4: a `compare_data` pairing whose experimental row is all zeros, with
`vardata=False`, yields a finite objective (no `inf`, no `NaN`, no
exception): every per-timepoint term has a zero denominator, is clamped to
`1e-100`, and the pairing's objective is the sum of clamp constants. -/
theorem compare_data_zero_variance_clamped
    (interp : List PF → List PF → List PF → List PF)
    (xparray simarray : List (List PF)) (xspairlist : List (ℕ × ℕ))
    (i xa sa mm : ℕ)
    (hpr : xspairlist.get? i = some (xa, sa))
    (hexp : xparray.getD xa [] = List.replicate mm (PF.fin 0))
    (hilen : (interp (simarray.getD 0 []) (simarray.getD sa [])
      (xparray.getD 0 [])).length = mm) :
    (compare_data interp xparray simarray xspairlist false).get? i
      = some (PF.fin ((mm : ℚ) * clampConst)) ∧
    ((compare_data interp xparray simarray xspairlist false).getD i PF.nan).isinf
      = false ∧
    ((compare_data interp xparray simarray xspairlist false).getD i PF.nan).isnan
      = false := by
  have hi : i < xspairlist.length := by
    by_contra hlt
    rw [List.get?_eq_none.mpr (by omega)] at hpr
    exact Option.noConfusion hpr
  have hprv : xspairlist.get ⟨i, hi⟩ = (xa, sa) := by
    rw [List.get?_eq_get hi] at hpr
    exact Option.some.inj hpr
  have hvr : varRow xparray xa false = List.replicate mm (PF.fin 0) := by
    rw [varRow]
    simp only [if_neg Bool.false_ne_true, hexp, List.map_replicate]
    congr 1
    simp [PF.mul]
  have hval : (compare_data interp xparray simarray xspairlist false).get? i
      = some (pfSum (clampObj (List.zipWith PF.div
          (List.zipWith PF.mul
            (List.zipWith PF.sub
              (interp (simarray.getD 0 []) (simarray.getD sa [])
                (xparray.getD 0 []))
              (xparray.getD xa []))
            (List.zipWith PF.sub
              (interp (simarray.getD 0 []) (simarray.getD sa [])
                (xparray.getD 0 []))
              (xparray.getD xa [])))
          ((varRow xparray xa false).map (fun x => PF.mul x (PF.fin 2)))))) := by
    rw [compare_data, List.get?_map, List.get?_eq_get hi, hprv]
    rfl
  rw [hexp, hvr] at hval
  have hv2 : (List.replicate mm (PF.fin 0)).map (fun x => PF.mul x (PF.fin 2))
      = List.replicate mm (PF.fin 0) := by
    rw [List.map_replicate]
    congr 1
    simp [PF.mul]
  rw [hv2] at hval
  have hdlen : (List.zipWith PF.sub
      (interp (simarray.getD 0 []) (simarray.getD sa []) (xparray.getD 0 []))
      (List.replicate mm (PF.fin 0))).length = mm := by
    rw [List.length_zipWith, hilen, List.length_replicate]
    exact Nat.min_self mm
  have hobjlen : (List.zipWith PF.div
      (List.zipWith PF.mul
        (List.zipWith PF.sub
          (interp (simarray.getD 0 []) (simarray.getD sa []) (xparray.getD 0 []))
          (List.replicate mm (PF.fin 0)))
        (List.zipWith PF.sub
          (interp (simarray.getD 0 []) (simarray.getD sa []) (xparray.getD 0 []))
          (List.replicate mm (PF.fin 0))))
      (List.replicate mm (PF.fin 0))).length = mm := by
    rw [List.length_zipWith, List.length_zipWith, hdlen, List.length_replicate]
    omega
  have hcl : ∀ x ∈ clampObj (List.zipWith PF.div
      (List.zipWith PF.mul
        (List.zipWith PF.sub
          (interp (simarray.getD 0 []) (simarray.getD sa []) (xparray.getD 0 []))
          (List.replicate mm (PF.fin 0)))
        (List.zipWith PF.sub
          (interp (simarray.getD 0 []) (simarray.getD sa []) (xparray.getD 0 []))
          (List.replicate mm (PF.fin 0))))
      (List.replicate mm (PF.fin 0))), x = PF.fin clampConst := by
    intro x hx
    obtain ⟨y, hy, rfl⟩ := List.mem_map.mp hx
    obtain ⟨t, ht, rfl⟩ := List.mem_iff_getElem.mp hy
    have ht' : t < mm := by omega
    simp only [List.getElem_zipWith, List.getElem_replicate]
    exact clamp_of_zero_den _
  have hsum : pfSum (clampObj (List.zipWith PF.div
      (List.zipWith PF.mul
        (List.zipWith PF.sub
          (interp (simarray.getD 0 []) (simarray.getD sa []) (xparray.getD 0 []))
          (List.replicate mm (PF.fin 0)))
        (List.zipWith PF.sub
          (interp (simarray.getD 0 []) (simarray.getD sa []) (xparray.getD 0 []))
          (List.replicate mm (PF.fin 0))))
      (List.replicate mm (PF.fin 0)))) = PF.fin ((mm : ℚ) * clampConst) := by
    rw [pfSum_const _ clampConst hcl]
    congr 1
    rw [clampObj, List.length_map, hobjlen]
  rw [hsum] at hval
  refine ⟨hval, ?_, ?_⟩ <;>
    rw [List.getD_eq_getElem?_getD, ← List.get?_eq_getElem?,  hval] <;> rfl

/-- Witness for C4 with a two-point all-zero experimental row. -/
theorem compare_data_zero_variance_clamped_witness :
    (([(1, 1)] : List (ℕ × ℕ)).get? 0 = some (1, 1) ∧
      ([[PF.fin 5], [PF.fin 0, PF.fin 0]] : List (List PF)).getD 1 []
        = List.replicate 2 (PF.fin 0)) ∧
    ((compare_data (fun _ _ _ => [PF.fin 3, PF.fin 0])
        [[PF.fin 5], [PF.fin 0, PF.fin 0]] [] [(1, 1)] false).get? 0
      = some (PF.fin ((2 : ℚ) * clampConst)) ∧
    ((compare_data (fun _ _ _ => [PF.fin 3, PF.fin 0])
        [[PF.fin 5], [PF.fin 0, PF.fin 0]] [] [(1, 1)] false).getD 0 PF.nan).isinf
      = false ∧
    ((compare_data (fun _ _ _ => [PF.fin 3, PF.fin 0])
        [[PF.fin 5], [PF.fin 0, PF.fin 0]] [] [(1, 1)] false).getD 0 PF.nan).isnan
      = false) :=
  ⟨⟨by decide, by decide⟩,
    compare_data_zero_variance_clamped (fun _ _ _ => [PF.fin 3, PF.fin 0])
      [[PF.fin 5], [PF.fin 0, PF.fin 0]] [] [(1, 1)] 0 1 1 2
      (by decide) (by decide) (by decide)⟩

/-- C5: for a pairing `(xa, sa)` whose resampled simulation, experimental
and variance series are finite and whose variance series has no zero, the
returned scalar is the sum over experimental timepoints of
`(resampled_sim - exp)^2 / (2*variance)`, with the variance series being
row `xa+1` of the experimental array when `vardata` and `(0.1*exp)^2`
otherwise; and the output holds exactly one scalar per pairing, in
pairing order. -/
theorem compare_data_objective_formula
    (interp : List PF → List PF → List PF → List PF)
    (xparray simarray : List (List PF)) (xspairlist : List (ℕ × ℕ))
    (vardata : Bool) (i xa sa m : ℕ) (sims exps varsQ : List ℚ)
    (hpr : xspairlist.get? i = some (xa, sa))
    (hsim : interp (simarray.getD 0 []) (simarray.getD sa [])
      (xparray.getD 0 []) = sims.map PF.fin)
    (hexp : xparray.getD xa [] = exps.map PF.fin)
    (hvar : varRow xparray xa vardata = varsQ.map PF.fin)
    (hslen : sims.length = m) (helen : exps.length = m)
    (hvlen : varsQ.length = m) (hvnz : ∀ v ∈ varsQ, v ≠ 0) :
    (compare_data interp xparray simarray xspairlist vardata).length
      = xspairlist.length ∧
    (compare_data interp xparray simarray xspairlist vardata).get? i
      = some (PF.fin (∑ t in Finset.range m,
          (sims.getD t 0 - exps.getD t 0) ^ 2 / (2 * varsQ.getD t 0))) ∧
    (vardata = false →
      varsQ = exps.map (fun e => (e * (1/10)) * (e * (1/10)))) := by
  have hi : i < xspairlist.length := by
    by_contra hlt
    rw [List.get?_eq_none.mpr (by omega)] at hpr
    exact Option.noConfusion hpr
  have hprv : xspairlist.get ⟨i, hi⟩ = (xa, sa) := by
    rw [List.get?_eq_get hi] at hpr
    exact Option.some.inj hpr
  have hval : (compare_data interp xparray simarray xspairlist vardata).get? i
      = some (pfSum (clampObj (List.zipWith PF.div
          (List.zipWith PF.mul
            (List.zipWith PF.sub
              (interp (simarray.getD 0 []) (simarray.getD sa [])
                (xparray.getD 0 []))
              (xparray.getD xa []))
            (List.zipWith PF.sub
              (interp (simarray.getD 0 []) (simarray.getD sa [])
                (xparray.getD 0 []))
              (xparray.getD xa [])))
          ((varRow xparray xa vardata).map (fun x => PF.mul x (PF.fin 2)))))) := by
    rw [compare_data, List.get?_map, List.get?_eq_get hi, hprv]
    rfl
  rw [hsim, hexp, hvar] at hval
  have h1 : List.zipWith PF.sub (sims.map PF.fin) (exps.map PF.fin)
      = (List.zipWith (fun s e => s - e) sims exps).map PF.fin :=
    zipWith_fin_op PF.sub (fun s e => s - e) (fun _ _ => rfl) sims exps
  rw [h1] at hval
  have h2 : List.zipWith PF.mul
      ((List.zipWith (fun s e => s - e) sims exps).map PF.fin)
      ((List.zipWith (fun s e => s - e) sims exps).map PF.fin)
      = (List.zipWith (fun a b => a * b)
          (List.zipWith (fun s e => s - e) sims exps)
          (List.zipWith (fun s e => s - e) sims exps)).map PF.fin :=
    zipWith_fin_op PF.mul (fun a b => a * b) (fun _ _ => rfl) _ _
  rw [h2] at hval
  have h3 : (varsQ.map PF.fin).map (fun x => PF.mul x (PF.fin 2))
      = (varsQ.map (fun v => v * 2)).map PF.fin := by
    rw [List.map_map, List.map_map]
    rfl
  rw [h3] at hval
  have hv2 : ∀ x ∈ varsQ.map (fun v => v * 2), x ≠ 0 := by
    intro x hx
    obtain ⟨v, hv, rfl⟩ := List.mem_map.mp hx
    exact mul_ne_zero (hvnz v hv) two_ne_zero
  have h4 : List.zipWith PF.div
      ((List.zipWith (fun a b => a * b)
        (List.zipWith (fun s e => s - e) sims exps)
        (List.zipWith (fun s e => s - e) sims exps)).map PF.fin)
      ((varsQ.map (fun v => v * 2)).map PF.fin)
      = (List.zipWith (fun a b => a / b)
          (List.zipWith (fun a b => a * b)
            (List.zipWith (fun s e => s - e) sims exps)
            (List.zipWith (fun s e => s - e) sims exps))
          (varsQ.map (fun v => v * 2))).map PF.fin := by
    rw [List.zipWith_map]
    exact zipWith_div_fin _ _ hv2
  rw [h4, clampObj_map_fin, pfSum_map_fin] at hval
  have hdlen : (List.zipWith (fun s e => s - e) sims exps).length = m := by
    rw [List.length_zipWith, hslen, helen]
    exact Nat.min_self m
  have hsqlen : (List.zipWith (fun a b => a * b)
      (List.zipWith (fun s e => s - e) sims exps)
      (List.zipWith (fun s e => s - e) sims exps)).length = m := by
    rw [List.length_zipWith, hdlen]
    exact Nat.min_self m
  have hobjlen : (List.zipWith (fun a b => a / b)
      (List.zipWith (fun a b => a * b)
        (List.zipWith (fun s e => s - e) sims exps)
        (List.zipWith (fun s e => s - e) sims exps))
      (varsQ.map (fun v => v * 2))).length = m := by
    rw [List.length_zipWith, hsqlen, List.length_map, hvlen]
    exact Nat.min_self m
  have hsumval : (List.zipWith (fun a b => a / b)
      (List.zipWith (fun a b => a * b)
        (List.zipWith (fun s e => s - e) sims exps)
        (List.zipWith (fun s e => s - e) sims exps))
      (varsQ.map (fun v => v * 2))).sum
      = ∑ t in Finset.range m,
          (sims.getD t 0 - exps.getD t 0) ^ 2 / (2 * varsQ.getD t 0) := by
    rw [list_sum_eq_range, hobjlen]
    refine Finset.sum_congr rfl (fun t ht => ?_)
    have ht' : t < m := Finset.mem_range.mp ht
    rw [getD_zipWith_lt _ _ _ t 0 0 0 (by omega) (by rw [List.length_map]; omega),
      getD_zipWith_lt _ _ _ t 0 0 0 (by omega) (by omega),
      getD_zipWith_lt _ _ _ t 0 0 0 (by omega) (by omega),
      getD_map_lt _ _ t 0 0 (by omega)]
    ring
  rw [hsumval] at hval
  refine ⟨by simp [compare_data], hval, ?_⟩
  intro hfalse
  subst hfalse
  have hform : varRow xparray xa false
      = (exps.map (fun e => (e * (1/10)) * (e * (1/10)))).map PF.fin := by
    rw [varRow, if_neg Bool.false_ne_true, hexp, List.map_map, List.map_map]
    rfl
  exact map_fin_inj (hvar.symm.trans hform)

/-- Witness for C5 with `vardata=True`, two timepoints, variances 3 and
4. -/
theorem compare_data_objective_formula_witness :
    (([(1, 1)] : List (ℕ × ℕ)).get? 0 = some (1, 1) ∧
      ([[PF.fin 0], [PF.fin 1, PF.fin 2], [PF.fin 3, PF.fin 4]] :
        List (List PF)).getD 1 [] = ([(1:ℚ), 2]).map PF.fin ∧
      varRow [[PF.fin 0], [PF.fin 1, PF.fin 2], [PF.fin 3, PF.fin 4]] 1 true
        = ([(3:ℚ), 4]).map PF.fin ∧
      (∀ v ∈ ([(3:ℚ), 4] : List ℚ), v ≠ 0)) ∧
    ((compare_data (fun _ _ _ => [PF.fin 5, PF.fin 6])
        [[PF.fin 0], [PF.fin 1, PF.fin 2], [PF.fin 3, PF.fin 4]] [] [(1, 1)]
        true).length = ([(1, 1)] : List (ℕ × ℕ)).length ∧
      (compare_data (fun _ _ _ => [PF.fin 5, PF.fin 6])
        [[PF.fin 0], [PF.fin 1, PF.fin 2], [PF.fin 3, PF.fin 4]] [] [(1, 1)]
        true).get? 0
        = some (PF.fin (∑ t in Finset.range 2,
            (([(5:ℚ), 6]).getD t 0 - ([(1:ℚ), 2]).getD t 0) ^ 2
              / (2 * ([(3:ℚ), 4]).getD t 0))) ∧
      (true = false →
        ([(3:ℚ), 4] : List ℚ)
          = ([(1:ℚ), 2]).map (fun e => (e * (1/10)) * (e * (1/10))))) :=
  ⟨⟨by decide, by decide, by decide, by decide⟩,
    compare_data_objective_formula (fun _ _ _ => [PF.fin 5, PF.fin 6])
      [[PF.fin 0], [PF.fin 1, PF.fin 2], [PF.fin 3, PF.fin 4]] [] [(1, 1)]
      true 0 1 1 2 [5, 6] [1, 2] [3, 4]
      (by decide) (by decide) (by decide) (by decide) (by decide) (by decide)
      (by decide) (by decide)⟩

/-- C7: `odesolve` with a non-None `useparams` list overwrites exactly
the buffer entries `data.p[useparams[i]]` (each receiving the
c_float store of `params[i]`); every entry at an index not in
`useparams` keeps the value it had before the call. -/
theorem odesolve_useparams_frame (p params : List ℚ) (us : List ℕ)
    (hnd : us.Nodup) (hlen : us.length ≤ params.length)
    (hb : ∀ u ∈ us, u < p.length) :
    (writeParams p params (some us)).length = p.length ∧
    (∀ j, j ∉ us → (writeParams p params (some us)).getD j 0 = p.getD j 0) ∧
    ∀ i, i < us.length →
      (writeParams p params (some us)).getD (us.getD i 0) 0
        = roundF32 (params.getD i 0) := by
  refine ⟨setLoop_length p _ _ us.length, ?_, ?_⟩
  · intro j hj
    refine setLoop_getD_of_ne p _ _ us.length j (fun i hi => ?_)
    intro heq
    apply hj
    rw [← heq, List.getD_eq_getElem _ _ hi]
    exact List.getElem_mem hi
  · intro i hi
    refine setLoop_getD_written p _ _ us.length i hi ?_ ?_
    · apply hb
      rw [List.getD_eq_getElem _ _ hi]
      exact List.getElem_mem hi
    · intro k hk1 hk2 hkeq
      rw [List.getD_eq_getElem _ _ hk2, List.getD_eq_getElem _ _ hi] at hkeq
      rw [hnd.getElem_inj_iff] at hkeq
      omega

/-- Witness for C7: a 3-entry buffer with only index 1 overwritten. -/
theorem odesolve_useparams_frame_witness :
    (([1] : List ℕ).Nodup ∧ ([1] : List ℕ).length ≤ ([(10:ℚ)]).length ∧
      ∀ u ∈ ([1] : List ℕ), u < ([(1:ℚ), 2, 3]).length) ∧
    ((writeParams [(1:ℚ), 2, 3] [(10:ℚ)] (some [1])).length
        = ([(1:ℚ), 2, 3]).length ∧
      (∀ j, j ∉ ([1] : List ℕ) →
        (writeParams [(1:ℚ), 2, 3] [(10:ℚ)] (some [1])).getD j 0
          = ([(1:ℚ), 2, 3]).getD j 0) ∧
      ∀ i, i < ([1] : List ℕ).length →
        (writeParams [(1:ℚ), 2, 3] [(10:ℚ)] (some [1])).getD
            (([1] : List ℕ).getD i 0) 0
          = roundF32 (([(10:ℚ)]).getD i 0)) :=
  ⟨⟨by decide, by decide, by decide⟩,
    odesolve_useparams_frame [(1:ℚ), 2, 3] [(10:ℚ)] [1]
      (by decide) (by decide) (by decide)⟩

/-- C10: every parameter value the RHS evaluator `f` reads comes from the
`ctypes.c_float` buffer `data.p`: `odeinit` stores the nominal values
rounded to single precision, a full positional `odesolve` override leaves
the buffer exactly `params.map roundF32`, after any override (full or
subset) every buffer entry is a `roundF32` image, and single-precision
rounding is not the identity (`roundF32 (1/10) ≠ 1/10`), so the integrated
system never sees the caller's full-precision values. -/
theorem rhs_sees_float32 (nominal params : List ℚ)
    (hlen : params.length = nominal.length) :
    odeinitParams nominal = nominal.map roundF32 ∧
    writeParams (odeinitParams nominal) params none = params.map roundF32 ∧
    (∀ useparams, ∀ x ∈ writeParams (odeinitParams nominal) params useparams,
      ∃ q, x = roundF32 q) ∧
    roundF32 (1/10) ≠ 1/10 := by
  have hinitlen : (odeinitParams nominal).length = nominal.length := by
    simp [odeinitParams]
  refine ⟨rfl, ?_, ?_, ?_⟩
  · refine List.ext_getElem ?_ ?_
    · simp only [writeParams]
      rw [setLoop_length, hinitlen, List.length_map, hlen]
    · intro j h1 h2
      have hj : j < params.length := by
        rw [List.length_map] at h2
        exact h2
      have hwr : (writeParams (odeinitParams nominal) params none).getD j 0
          = roundF32 (params.getD j 0) := by
        refine setLoop_getD_written _ _ _ params.length j hj ?_ ?_
        · rw [hinitlen]; omega
        · intro k hk1 _ hkeq
          omega
      rw [← List.getD_eq_getElem _ _ h1, ← List.getD_eq_getElem _ _ h2, hwr,
        getD_map_lt roundF32 params j 0 0 hj]
  · intro useparams x hx
    cases useparams with
    | none =>
      rcases setLoop_mem _ _ _ _ x hx with hmem | ⟨i, _, rfl⟩
      · obtain ⟨q, _, rfl⟩ := List.mem_map.mp hmem
        exact ⟨q, rfl⟩
      · exact ⟨params.getD i 0, rfl⟩
    | some us =>
      rcases setLoop_mem _ _ _ _ x hx with hmem | ⟨i, _, rfl⟩
      · obtain ⟨q, _, rfl⟩ := List.mem_map.mp hmem
        exact ⟨q, rfl⟩
      · exact ⟨params.getD i 0, rfl⟩
  · intro h
    obtain ⟨z, e, hz⟩ := roundF32_dyadic (1/10)
    rw [h] at hz
    exact dyadic_ne_tenth z e hz.symm

/-- Witness for C10 at `nominal = [1/10]`, `params = [1/10]`. -/
theorem rhs_sees_float32_witness :
    (([(1:ℚ)/10]).length = ([(1:ℚ)/10]).length) ∧
    (odeinitParams [(1:ℚ)/10] = ([(1:ℚ)/10]).map roundF32 ∧
      writeParams (odeinitParams [(1:ℚ)/10]) [(1:ℚ)/10] none
        = ([(1:ℚ)/10]).map roundF32 ∧
      (∀ useparams, ∀ x ∈ writeParams (odeinitParams [(1:ℚ)/10]) [(1:ℚ)/10] useparams,
        ∃ q, x = roundF32 q) ∧
      roundF32 (1/10) ≠ 1/10) :=
  ⟨rfl, rhs_sees_float32 [(1:ℚ)/10] [(1:ℚ)/10] rfl⟩

/-- C8: `getlog` maps each sobol coordinate `u_i` to `lb_i*(ub_i/lb_i)^u_i`,
with `ub_i = params[i]*10^usemag`, `lb_i = params[i]/10^usemag` for indices
in `useparams` and the `omag` bounds otherwise. -/
theorem getlog_maps_loguniform (sobolarr params : List ℝ) (omag usemag : ℤ)
    (useparams : List ℕ) (p : ℕ)
    (hplen : params.length = p) (hslen : sobolarr.length = p)
    (hnz : ∀ x ∈ params, x ≠ 0)
    (hrange : ∀ u ∈ sobolarr, 0 ≤ u ∧ u < 1) :
    (getlog sobolarr params omag useparams usemag).length = p ∧
    ∀ i < p,
      (getlog sobolarr params omag useparams usemag).getD i 0
        = (if i ∈ useparams then params.getD i 0 / (10:ℝ) ^ usemag
            else params.getD i 0 / (10:ℝ) ^ omag)
          * ((if i ∈ useparams then params.getD i 0 * (10:ℝ) ^ usemag
              else params.getD i 0 * (10:ℝ) ^ omag)
            / (if i ∈ useparams then params.getD i 0 / (10:ℝ) ^ usemag
              else params.getD i 0 / (10:ℝ) ^ omag))
            ^ (sobolarr.getD i 0) := by
  constructor
  · simp [getlog, hplen]
  · intro i hi
    have hi' : i < (List.range params.length).length := by
      simp only [List.length_range]
      omega
    simp only [getlog]
    rw [getD_map_lt _ _ i 0 0 hi']
    have hr : (List.range params.length).getD i 0 = i := by
      rw [List.getD_eq_getElem _ _ hi']
      simp
    rw [hr]

/-- Witness for C8 at `params = [2,3]`, `u = [0, 1/2]`, `useparams=[0]`,
`omag=1`, `usemag=2`. -/
theorem getlog_maps_loguniform_witness :
    (([(2:ℝ), 3]).length = 2 ∧ ([(0:ℝ), 1/2]).length = 2 ∧
      (∀ x ∈ ([(2:ℝ), 3] : List ℝ), x ≠ 0) ∧
      ∀ u ∈ ([(0:ℝ), 1/2] : List ℝ), 0 ≤ u ∧ u < 1) ∧
    ((getlog [(0:ℝ), 1/2] [(2:ℝ), 3] 1 [0] 2).length = 2 ∧
      ∀ i < 2,
        (getlog [(0:ℝ), 1/2] [(2:ℝ), 3] 1 [0] 2).getD i 0
          = (if i ∈ ([0] : List ℕ) then ([(2:ℝ), 3]).getD i 0 / (10:ℝ) ^ (2:ℤ)
              else ([(2:ℝ), 3]).getD i 0 / (10:ℝ) ^ (1:ℤ))
            * ((if i ∈ ([0] : List ℕ) then ([(2:ℝ), 3]).getD i 0 * (10:ℝ) ^ (2:ℤ)
                else ([(2:ℝ), 3]).getD i 0 * (10:ℝ) ^ (1:ℤ))
              / (if i ∈ ([0] : List ℕ) then ([(2:ℝ), 3]).getD i 0 / (10:ℝ) ^ (2:ℤ)
                else ([(2:ℝ), 3]).getD i 0 / (10:ℝ) ^ (1:ℤ)))
              ^ (([(0:ℝ), 1/2]).getD i 0)) :=
  ⟨⟨rfl, rfl,
    by
      intro x hx
      simp only [List.mem_cons, List.not_mem_nil, or_false] at hx
      rcases hx with rfl | rfl <;> norm_num,
    by
      intro u hu
      simp only [List.mem_cons, List.not_mem_nil, or_false] at hu
      rcases hu with rfl | rfl <;> norm_num⟩,
    getlog_maps_loguniform [(0:ℝ), 1/2] [(2:ℝ), 3] 1 2 [0] 2 rfl rfl
      (by
        intro x hx
        simp only [List.mem_cons, List.not_mem_nil, or_false] at hx
        rcases hx with rfl | rfl <;> norm_num)
      (by
        intro u hu
        simp only [List.mem_cons, List.not_mem_nil, or_false] at hu
        rcases hu with rfl | rfl <;> norm_num)⟩

/-- C9 (amended): layout of `writetofile`'s writes.  Headers as claimed;
parameter value `i` is followed by a newline exactly when `i` is a
positive multiple of 5 or the last index (so the first line carries up to
6 values, later lines 5); simdata rows live at block offsets with a
`'# i\n'` marker each, value `j` followed by a newline exactly when `j` is
a positive multiple of 10 or the last index (first line up to 11 values,
later lines 10); a dash separator line terminates the output. -/
theorem writetofile_layout (simparms : List String)
    (simdata : List (List String)) (temperature : String) :
    (writetofile simparms simdata temperature)[0]?
      = some ("# TEMPERATURE\n" ++ temperature ++ "\n") ∧
    (writetofile simparms simdata temperature)[1]?
      = some ("# PARAMETERS (" ++ toString simparms.length ++ ")\n") ∧
    (∀ i, i < simparms.length →
      (writetofile simparms simdata temperature)[2 + 2 * i]?
        = some (simparms.getD i "") ∧
      (writetofile simparms simdata temperature)[3 + 2 * i]?
        = some (if (i ≠ 0 ∧ i % 5 = 0) ∨ i = simparms.length - 1
            then "\n" else ", ")) ∧
    (writetofile simparms simdata temperature)[2 + 2 * simparms.length]?
      = some ("# SIMDATA (" ++ toString simdata.length ++ ","
          ++ toString (simdata.headD []).length ++ ")\n") ∧
    (∀ k, k < (dataTokens simdata (simdata.headD []).length).length →
      (writetofile simparms simdata temperature)[3 + 2 * simparms.length + k]?
        = (dataTokens simdata (simdata.headD []).length)[k]?) ∧
    (∀ i, i < simdata.length →
      (dataTokens simdata (simdata.headD []).length)[i * (1 + 2 * (simdata.headD []).length)]?
        = some ("# " ++ toString i ++ "\n") ∧
      ∀ j, j < (simdata.headD []).length →
        (dataTokens simdata (simdata.headD []).length)[i * (1 + 2 * (simdata.headD []).length) + (2 * j + 1)]?
          = some ((simdata.getD i []).getD j "") ∧
        (dataTokens simdata (simdata.headD []).length)[i * (1 + 2 * (simdata.headD []).length) + (2 * j + 2)]?
          = some (if (j ≠ 0 ∧ j % 10 = 0) ∨ j = (simdata.headD []).length - 1
              then "\n" else ", ")) ∧
    (writetofile simparms simdata temperature).getLast? = some dashLine := by
  have happ : ∀ (x y : String) (rest : List String) (k : ℕ),
      ([x, y] ++ rest)[2 + k]? = rest[k]? := by
    intro x y rest k
    rw [List.getElem?_append_right (by simp)]
    congr 1
    simp
  refine ⟨by simp [writetofile], by simp [writetofile], ?_, ?_, ?_, ?_, ?_⟩
  · intro i hi
    constructor
    · simp only [writetofile]
      rw [happ, List.getElem?_append_left
        (by rw [paramTokens_length]; omega)]
      rw [show 2 * i = i * 2 + 0 by ring,
        paramTokens_getElem? simparms i 0 hi (by omega)]
      simp
    · simp only [writetofile]
      rw [show 3 + 2 * i = 2 + (1 + 2 * i) by ring, happ,
        List.getElem?_append_left (by rw [paramTokens_length]; omega)]
      rw [show 1 + 2 * i = i * 2 + 1 by ring,
        paramTokens_getElem? simparms i 1 hi (by omega)]
      simp only [List.getElem?_cons_succ, List.getElem?_cons_zero]
      rw [if_bool_prop _ _ (psep_iff i simparms.length)]
  · simp only [writetofile]
    rw [show 2 + 2 * simparms.length = 2 + (2 * simparms.length) from rfl, happ,
      List.getElem?_append_right (by rw [paramTokens_length]; omega)]
    rw [paramTokens_length, show 2 * simparms.length - simparms.length * 2 = 0 by omega]
    simp
  · intro k hk
    simp only [writetofile]
    rw [show 3 + 2 * simparms.length + k = 2 + (1 + 2 * simparms.length + k) by ring,
      happ,
      List.getElem?_append_right (by rw [paramTokens_length]; omega),
      paramTokens_length,
      show 1 + 2 * simparms.length + k - simparms.length * 2 = 1 + k by omega,
      List.getElem?_append_right (by simp),
      show 1 + k - ([_] : List String).length = k by simp,
      List.getElem?_append_left hk]
  · intro i hi
    have hm : (dataTokens simdata (simdata.headD []).length)[i * (1 + 2 * (simdata.headD []).length)]?
        = some ("# " ++ toString i ++ "\n") := by
      rw [show i * (1 + 2 * (simdata.headD []).length)
          = i * (1 + 2 * (simdata.headD []).length) + 0 by ring,
        dataTokens_getElem? simdata _ i 0 hi (by omega)]
      simp
    refine ⟨hm, ?_⟩
    intro j hj
    constructor
    · rw [dataTokens_getElem? simdata _ i (2 * j + 1) hi (by omega)]
      rw [List.getElem?_cons_succ, show 2 * j = j * 2 + 0 by ring,
        rowTokens_getElem? _ _ j 0 hj (by omega)]
      simp
    · rw [show (2 * j + 2) = (2 * j + 1) + 1 by ring,
        dataTokens_getElem? simdata _ i (2 * j + 1 + 1) hi (by omega)]
      rw [List.getElem?_cons_succ, show 2 * j + 1 = j * 2 + 1 by ring,
        rowTokens_getElem? _ _ j 1 hj (by omega)]
      simp only [List.getElem?_cons_succ, List.getElem?_cons_zero]
      rw [if_bool_prop _ _ (dsep_iff j (simdata.headD []).length)]
  · have hassoc : writetofile simparms simdata temperature
        = (["# TEMPERATURE\n" ++ temperature ++ "\n",
            "# PARAMETERS (" ++ toString simparms.length ++ ")\n"]
          ++ paramTokens simparms
          ++ ["# SIMDATA (" ++ toString simdata.length ++ ","
              ++ toString (simdata.headD []).length ++ ")\n"]
          ++ dataTokens simdata (simdata.headD []).length) ++ [dashLine] := by
      simp [writetofile, List.append_assoc]
    rw [hassoc, List.getLast?_concat]

/-- Counterexample to C9 as stated: with 7 parameter values the separator
written after the 5th value (index 4) is `', '`, not a newline — the first
parameter line holds 6 values, so the values are not wrapped every 5. -/
theorem writetofile_not_wrapped_every_five :
    (writetofile ["p0", "p1", "p2", "p3", "p4", "p5", "p6"] [] "300")[3 + 2 * 4]?
      = some ", " ∧
    ¬ ((writetofile ["p0", "p1", "p2", "p3", "p4", "p5", "p6"] [] "300")[3 + 2 * 4]?
      = some "\n") := by
  constructor
  · decide
  · decide

/-- Witness for C9's amended layout theorem at 7 parameters: a newline
follows value 5 (a positive multiple of 5), a comma follows value 4. -/
theorem writetofile_layout_witness :
    (writetofile ["p0", "p1", "p2", "p3", "p4", "p5", "p6"] [] "300")[3 + 2 * 5]?
      = some "\n" ∧
    (writetofile ["p0", "p1", "p2", "p3", "p4", "p5", "p6"] [] "300")[3 + 2 * 4]?
      = some ", " := by
  have h := writetofile_layout ["p0", "p1", "p2", "p3", "p4", "p5", "p6"] [] "300"
  obtain ⟨-, -, hp, -⟩ := h
  constructor
  · have h5 := (hp 5 (by decide)).2
    rw [if_pos (by decide :
      ((5:ℕ) ≠ 0 ∧ 5 % 5 = 0) ∨ (5:ℕ) = (["p0", "p1", "p2", "p3", "p4", "p5", "p6"] : List String).length - 1)] at h5
    exact h5
  · have h4 := (hp 4 (by decide)).2
    rw [if_neg (by decide :
      ¬ (((4:ℕ) ≠ 0 ∧ 4 % 5 = 0) ∨ (4:ℕ) = (["p0", "p1", "p2", "p3", "p4", "p5", "p6"] : List String).length - 1))] at h4
    exact h4

end GabiSampling
